import Mathlib

/-!
# Verification of `env` (github.com/marcsantiago/env)

A shallow embedding of `env.go` together with the parts of the Go standard
library it calls (`os.Getenv`, `strconv.ParseBool`, `strconv.ParseInt`,
`strings.Split`, `fmt.Sprintf`, `log.Println`, the conversion `string(rune)`).

* A Go `string` is its sequence of bytes (`GoString`), a byte being a natural
  number below 256.
* The process environment is an explicit argument (`Env`).
* A call produces an `Outcome`: the log entries it emitted and either the
  value it returned or the message it panicked with.
* Go's `int64` is an `Int` kept in range with `toInt64`; Go's `int` is an `Int`
  kept in range with `toInt intSize`, `intSize` being 32 or 64.
-/

/-! ## Go values -/

/-- Go `string`: an immutable sequence of bytes. -/
abbrev GoString := List Nat

/-- Bytes of the UTF-8 encoding of code point `n` (Go `utf8.AppendRune`, valid case). -/
def utf8.encodeValid (n : Nat) : GoString :=
  if n < 0x80 then [n]
  else if n < 0x800 then [0xC0 + n / 64, 0x80 + n % 64]
  else if n < 0x10000 then [0xE0 + n / 4096, 0x80 + n / 64 % 64, 0x80 + n % 64]
  else [0xF0 + n / 262144, 0x80 + n / 4096 % 64, 0x80 + n / 64 % 64, 0x80 + n % 64]

/-- Go `utf8.RuneError`, U+FFFD. -/
def utf8.RuneError : Nat := 0xFFFD

/-- Go conversion `string(r)` of a rune (an `int32`): the UTF-8 encoding of `r`,
and the encoding of U+FFFD when `r` is negative, a surrogate or above U+10FFFF. -/
def runeToString (r : Int) : GoString :=
  if r < 0 ∨ 0x10FFFF < r ∨ (0xD800 ≤ r ∧ r ≤ 0xDFFF) then utf8.encodeValid utf8.RuneError
  else utf8.encodeValid r.toNat

/-- Bytes of a source-code string literal (Go source is UTF-8). -/
def str (s : String) : GoString :=
  s.toList.flatMap (fun c => utf8.encodeValid c.toNat)

/-- Go conversion `int64(x)`: the value of `x` modulo 2^64 in the signed range. -/
def toInt64 (x : Int) : Int :=
  (x + 2 ^ 63) % 2 ^ 64 - 2 ^ 63

/-- Go conversion `int(x)` on a platform whose `int` has `intSize` bits. -/
def toInt (intSize : Nat) (x : Int) : Int :=
  (x + 2 ^ (intSize - 1)) % 2 ^ intSize - 2 ^ (intSize - 1)

/-- Range of Go's `int64`. -/
def isInt64 (x : Int) : Prop :=
  -(2 : Int) ^ 63 ≤ x ∧ x < 2 ^ 63

/-- Range of Go's `int` on a platform whose `int` has `intSize` bits. -/
def isInt (intSize : Nat) (x : Int) : Prop :=
  -(2 : Int) ^ (intSize - 1) ≤ x ∧ x < 2 ^ (intSize - 1)

instance (x : Int) : Decidable (isInt64 x) := by
  unfold isInt64; exact inferInstance

instance (w : Nat) (x : Int) : Decidable (isInt w x) := by
  unfold isInt; exact inferInstance

/-! ## Outcomes: log output, return value or panic -/

/-- How a call ends: a returned value, or `panic(msg)`. -/
inductive Result (α : Type) where
  | ret (v : α)
  | fault (msg : GoString)
  deriving DecidableEq, Repr

/-- Everything observable of a call: the entries written to the log, in order,
and how the call ended. -/
structure Outcome (α : Type) where
  log : List GoString
  result : Result α
  deriving DecidableEq, Repr

namespace Outcome

/-- Go `return v`. -/
def ret {α : Type} (v : α) : Outcome α := ⟨[], Result.ret v⟩

/-- Go `panic(msg)`. -/
def panic {α : Type} (msg : GoString) : Outcome α := ⟨[], Result.fault msg⟩

/-- One entry written to the standard logger. -/
def emit (entry : GoString) : Outcome Unit := ⟨[entry], Result.ret ()⟩

/-- Sequencing: a panic in the first call ends the whole call. -/
def bind {α β : Type} (x : Outcome α) (f : α → Outcome β) : Outcome β :=
  match x.result with
  | Result.fault m => ⟨x.log, Result.fault m⟩
  | Result.ret v => ⟨x.log ++ (f v).log, (f v).result⟩

/-- Whether the call panicked. -/
def faults {α : Type} (x : Outcome α) : Bool :=
  match x.result with
  | Result.fault _ => true
  | Result.ret _ => false

end Outcome

instance : Monad Outcome where
  pure := Outcome.ret
  bind := Outcome.bind

/-! ## package os -/

/-- The process environment as `os.LookupEnv` sees it: `none` for an unset name. -/
abbrev Env := GoString → Option GoString

/-- Go `os.Getenv`: the value of the variable, and "" when it is unset. -/
def os.Getenv (e : Env) (key : GoString) : GoString :=
  match e key with
  | some v => v
  | none => []

/-- Go `os.Setenv`. -/
def os.Setenv (e : Env) (key value : GoString) : Env :=
  fun k => if k = key then some value else e k

/-- Go `os.Unsetenv`. -/
def os.Unsetenv (e : Env) (key : GoString) : Env :=
  fun k => if k = key then none else e k

/-- The empty environment. -/
def os.emptyEnv : Env := fun _ => none

/-! ## package fmt, package log -/

/-- Go `fmt.Sprintf` with a format that is literal text followed by one `%s`
verb: the text followed by the string operand. -/
def fmt.Sprintf1 (before : String) (a : GoString) : GoString :=
  str before ++ a

/-- Go `fmt.Sprintf` with a format of the shape `text %s text %s`. -/
def fmt.Sprintf2 (before : String) (a : GoString) (between : String) (b : GoString) : GoString :=
  str before ++ a ++ str between ++ b

/-- Go `fmt.Sprintln` on string operands: the operands separated by one space,
followed by a newline. -/
def fmt.Sprintln : List GoString → GoString
  | [] => [10]
  | [a] => a ++ [10]
  | a :: b :: rest => a ++ 32 :: fmt.Sprintln (b :: rest)

/-- Go `log.Println`: one entry in the log. The entry is the formatted text;
the date and time that the standard logger puts in front are not modelled. -/
def log.Println (args : List GoString) : Outcome Unit :=
  Outcome.emit (fmt.Sprintln args)

/-! ## package strconv -/

namespace strconv

/-- Go `strconv.NumError.Err`: why a conversion failed. -/
inductive NumError where
  | errSyntax
  | errRange
  | errBase
  | errBitSize
  deriving DecidableEq, Repr

/-- Go `strconv.ParseBool`: the value and the error (`none` for `nil`). -/
def ParseBool (s : GoString) : Bool × Option NumError :=
  if s = str "1" ∨ s = str "t" ∨ s = str "T" ∨ s = str "true" ∨ s = str "TRUE"
      ∨ s = str "True" then (true, none)
  else if s = str "0" ∨ s = str "f" ∨ s = str "F" ∨ s = str "false" ∨ s = str "FALSE"
      ∨ s = str "False" then (false, none)
  else (false, some NumError.errSyntax)

/-- Go `strconv.FormatBool`. -/
def FormatBool (b : Bool) : GoString :=
  if b then str "true" else str "false"

/-- Go `strconv.lower`: `c | ('x' - 'X')`. -/
def lower (c : Nat) : Nat := c ||| 0x20

/-- The digit loop of Go `strconv.ParseUint`: `n` is the value read so far,
`cutoff` the least number whose product with `base` overflows `uint64`. -/
def ParseUint.loop (base cutoff maxVal : Nat) : GoString → Nat → Nat × Option NumError
  | [], n => (n, none)
  | c :: cs, n =>
    let d? : Option Nat :=
      if 48 ≤ c ∧ c ≤ 57 then some (c - 48)
      else if 97 ≤ lower c ∧ lower c ≤ 122 then some (lower c - 97 + 10)
      else none
    match d? with
    | none => (0, some NumError.errSyntax)
    | some d =>
      if d ≥ base then (0, some NumError.errSyntax)
      else if n ≥ cutoff then (maxVal, some NumError.errRange)
      else
        let n0 := n * base % 2 ^ 64
        let n1 := (n0 + d) % 2 ^ 64
        if n1 < n0 ∨ n1 > maxVal then (maxVal, some NumError.errRange)
        else ParseUint.loop base cutoff maxVal cs n1

/-- Go `strconv.ParseUint(s, base, bitSize)` for `2 ≤ base ≤ 36` and
`1 ≤ bitSize ≤ 64`. Base 0 (prefix detection, underscores) and bit size 0
(`IntSize`) are never passed by `env.go`; this model reports them as errors. -/
def ParseUint (s : GoString) (base bitSize : Nat) : Nat × Option NumError :=
  if s = [] then (0, some NumError.errSyntax)
  else if ¬ (2 ≤ base ∧ base ≤ 36) then (0, some NumError.errBase)
  else if bitSize = 0 ∨ bitSize > 64 then (0, some NumError.errBitSize)
  else
    let cutoff := (2 ^ 64 - 1) / base + 1
    let maxVal := 2 ^ bitSize - 1
    ParseUint.loop base cutoff maxVal s 0

/-- Go `strconv.ParseInt(s, base, bitSize)`, same parameters as `ParseUint`. -/
def ParseInt (s : GoString) (base bitSize : Nat) : Int × Option NumError :=
  match s with
  | [] => (0, some NumError.errSyntax)
  | c :: cs =>
    let neg : Bool := c = 45
    let s1 : GoString := if c = 43 then cs else if c = 45 then cs else c :: cs
    match ParseUint s1 base bitSize with
    | (_, some NumError.errSyntax) => (0, some NumError.errSyntax)
    | (_, some NumError.errBase) => (0, some NumError.errBase)
    | (_, some NumError.errBitSize) => (0, some NumError.errBitSize)
    | (un, _) =>
      let cutoff : Nat := 2 ^ (bitSize - 1)
      if ¬ neg ∧ un ≥ cutoff then ((cutoff : Int) - 1, some NumError.errRange)
      else if neg ∧ un > cutoff then (-(cutoff : Int), some NumError.errRange)
      else
        let n := toInt64 un
        (if neg then toInt64 (-n) else n, none)

/-- The digit loop of Go `strconv.formatBits` in base 10: the digits of `u`
are put in front of `a`, least significant first. `fuel` bounds the number of
divisions. -/
def formatBits.loop : Nat → Nat → GoString → GoString
  | 0, u, a => (48 + u % 10) :: a
  | fuel + 1, u, a =>
    if u ≥ 10 then formatBits.loop fuel (u / 10) ((48 + u % 10) :: a)
    else (48 + u) :: a

/-- Go `strconv.FormatInt(i, 10)`: the decimal digits of `i`, after a `-` when
`i` is negative. -/
def FormatInt (i : Int) : GoString :=
  if i < 0 then 45 :: formatBits.loop (-i).toNat (-i).toNat []
  else formatBits.loop i.toNat i.toNat []

/-- Go `strconv.Itoa(i)`, which is `FormatInt(int64(i), 10)`. -/
def Itoa (i : Int) : GoString := FormatInt (toInt64 i)

end strconv

/-! ## package strings -/

namespace strings

/-- Go `strings.HasPrefix`. -/
def HasPrefix : GoString → GoString → Bool
  | _, [] => true
  | [], _ :: _ => false
  | c :: s, p :: ps => c = p && HasPrefix s ps

/-- Go `strings.Index(s, substr)`: the index of the first instance of `substr`
in `s`, `none` for Go's -1. -/
def Index : GoString → GoString → Option Nat
  | [], substr => if substr = [] then some 0 else none
  | c :: s, substr =>
    if HasPrefix (c :: s) substr then some 0
    else (Index s substr).map (· + 1)

/-- The loop of Go `strings.Count` for a non-empty `substr`: the number of
non-overlapping instances, searching again after each one. `fuel` bounds the
number of instances. -/
def Count.loop (substr : GoString) : Nat → GoString → Nat → Nat
  | 0, _, n => n
  | fuel + 1, s, n =>
    match Index s substr with
    | none => n
    | some i => Count.loop substr fuel (s.drop (i + substr.length)) (n + 1)

/-- Go `strings.Count(s, substr)` for a non-empty `substr`. -/
def Count (s substr : GoString) : Nat :=
  Count.loop substr s.length s 0

/-- The loop of Go `strings.genSplit`: at most `k` more cuts. -/
def genSplit.loop (sep : GoString) : Nat → GoString → List GoString
  | 0, s => [s]
  | k + 1, s =>
    match Index s sep with
    | none => [s]
    | some m => s.take m :: genSplit.loop sep k (s.drop (m + sep.length))

/-- Go `strings.Split(s, sep)`, which is `genSplit(s, sep, 0, -1)`, for a
non-empty `sep`. With `sep = ""` Go explodes `s` into UTF-8 sequences; `env.go`
never passes an empty separator (`string(rune)` is never empty) and this model
does not cover it. -/
def Split (s sep : GoString) : List GoString :=
  let n := min (Count s sep + 1) (s.length + 1)
  genSplit.loop sep (n - 1) s

/-- Go `strings.Join(elems, sep)`: the elements with `sep` between consecutive
ones. -/
def Join : List GoString → GoString → GoString
  | [], _ => []
  | [a], _ => a
  | a :: b :: rest, sep => a ++ sep ++ Join (b :: rest) sep

end strings

/-! ## package env (env.go) -/

namespace env

/-- Source `getVar` in env.go. -/
def getVar (e : Env) (name defaultValue : GoString) (warn : Bool) : Outcome GoString :=
  let v := os.Getenv e name
  if v.length = 0 then do
    if warn then
      log.Println [str "Using fallback default value for env var.", str "var", name,
        str "default", defaultValue]
    return defaultValue
  else
    return v

/-- Source `Var` in env.go. -/
def Var (e : Env) (envVarName defaultValue : GoString) : Outcome GoString :=
  getVar e envVarName defaultValue false

/-- Source `ImportantVar` in env.go. -/
def ImportantVar (e : Env) (envVarName defaultValue : GoString) : Outcome GoString :=
  getVar e envVarName defaultValue true

/-- Source `MandatoryVar` in env.go. -/
def MandatoryVar (e : Env) (envVarName : GoString) : Outcome GoString :=
  let v := os.Getenv e envVarName
  if v.length = 0 then
    Outcome.panic (fmt.Sprintf1 "Missing mandatory env var name " envVarName)
  else
    return v

/-- Source `VarAsBool` in env.go. -/
def VarAsBool (e : Env) (envVarName : GoString) (defaultValue : Bool) : Outcome Bool :=
  let v := os.Getenv e envVarName
  if v.length = 0 then
    return defaultValue
  else
    match strconv.ParseBool v with
    | (_, some _) => return defaultValue
    | (bv, none) => return bv

/-- Source `MandatoryVarAsBool` in env.go. -/
def MandatoryVarAsBool (e : Env) (envVarName : GoString) : Outcome Bool := do
  let s ← MandatoryVar e envVarName
  match strconv.ParseBool s with
  | (_, some _) =>
    Outcome.panic (fmt.Sprintf2 "Invalid bool value for env var name " envVarName " value " s)
  | (v, none) => return v

/-- Source `VarAsInt64` in env.go. -/
def VarAsInt64 (e : Env) (envVarName : GoString) (defaultValue : Int) : Outcome Int :=
  let v := os.Getenv e envVarName
  if v.length = 0 then
    return defaultValue
  else
    match strconv.ParseInt v 10 64 with
    | (_, some _) => return defaultValue
    | (iv, none) => return iv

/-- Source `MandatoryVarAsInt64` in env.go. -/
def MandatoryVarAsInt64 (e : Env) (envVarName : GoString) : Outcome Int := do
  let s ← MandatoryVar e envVarName
  match strconv.ParseInt s 10 64 with
  | (_, some _) =>
    Outcome.panic (fmt.Sprintf2 "Invalid int value for env var name " envVarName " value " s)
  | (v, none) => return v

/-- Source `VarAsInt` in env.go, on a platform whose `int` has `intSize` bits. -/
def VarAsInt (intSize : Nat) (e : Env) (envVarName : GoString) (defaultValue : Int) :
    Outcome Int := do
  let r ← VarAsInt64 e envVarName (toInt64 defaultValue)
  return toInt intSize r

/-- Source `MandatoryVarAsInt` in env.go, on a platform whose `int` has
`intSize` bits. -/
def MandatoryVarAsInt (intSize : Nat) (e : Env) (envVarName : GoString) : Outcome Int := do
  let r ← MandatoryVarAsInt64 e envVarName
  return toInt intSize r

/-- Source `VarAsStringSlice` in env.go; `deliminator` is a rune. -/
def VarAsStringSlice (e : Env) (envVarName : GoString) (defaultValue : List GoString)
    (deliminator : Int) : Outcome (List GoString) :=
  let v := os.Getenv e envVarName
  if v.length = 0 then
    return defaultValue
  else
    let vv := strings.Split v (runeToString deliminator)
    if vv.length > 0 then
      return vv
    else
      return defaultValue

/-- Source `MandatoryVarAsStringSlice` in env.go; `deliminator` is a rune. -/
def MandatoryVarAsStringSlice (e : Env) (envVarName : GoString) (deliminator : Int) :
    Outcome (List GoString) := do
  let s ← MandatoryVar e envVarName
  let vv := strings.Split s (runeToString deliminator)
  if vv.length = 0 then
    Outcome.panic
      (fmt.Sprintf2 "Invalid []string value for env var name " envVarName " value " s)
  else
    return vv

end env

/-! ## Vocabulary of the specification -/

namespace spec

/-- The warning that the specification asks for on the fallback path of the
warning policy, as env.go words it. -/
def warning (N D : GoString) : GoString :=
  fmt.Sprintln [str "Using fallback default value for env var.", str "var", N,
    str "default", D]

/-- Spellings of true that the boolean parse accepts. -/
def trueLiterals : List GoString :=
  [str "1", str "t", str "T", str "true", str "TRUE", str "True"]

/-- Spellings of false that the boolean parse accepts. -/
def falseLiterals : List GoString :=
  [str "0", str "f", str "F", str "false", str "FALSE", str "False"]

/-- A string with its ASCII upper-case letters replaced by lower-case ones. -/
def asciiLower (s : GoString) : GoString :=
  s.map (fun c => if 65 ≤ c ∧ c ≤ 90 then c + 32 else c)

/-- The specification's boolean forms `true/1/t`, to be read ignoring case. -/
def trueForms : List GoString := [str "true", str "1", str "t"]

/-- A non-empty run of the bytes `0` to `9`. -/
def isDigits (ds : GoString) : Prop :=
  ds ≠ [] ∧ ∀ c ∈ ds, 48 ≤ c ∧ c ≤ 57

instance (ds : GoString) : Decidable (isDigits ds) := by
  unfold isDigits; exact inferInstance

/-- The number that a run of decimal digits denotes. -/
def decimalValue (ds : GoString) : Nat :=
  ds.foldl (fun a c => 10 * a + (c - 48)) 0

/-- The signs a base-10 integer literal may start with: none, `+` or `-`. -/
def signs : List GoString := [[], [43], [45]]

/-- The integer that the literal `sign ++ ds` denotes. -/
def literalValue (sign ds : GoString) : Int :=
  if sign = [45] then -(decimalValue ds : Int) else (decimalValue ds : Int)

/-- The specification's narrowing of `x` to a signed width of `w` bits: `r` is
in the range of that width and is `x` modulo 2^w. -/
def narrows (w : Nat) (x r : Int) : Prop :=
  isInt w r ∧ (2 : Int) ^ w ∣ r - x

/-- A base-10 integer literal: an optional sign followed by one or more
decimal digits. -/
def isIntLiteral (v : GoString) : Prop :=
  ∃ sign ∈ signs, ∃ ds ∈ v.tails, isDigits ds ∧ v = sign ++ ds

instance (v : GoString) : Decidable (isIntLiteral v) := by
  unfold isIntLiteral; exact inferInstance

/-- The pieces of a string between successive occurrences of `sep`, read from
left to right: `cur` holds the current piece in reverse, `skip` counts the
bytes of the occurrence just met that are still to be passed over. -/
def piecesFrom (sep : GoString) : GoString → Nat → GoString → List GoString
  | [], _, cur => [cur.reverse]
  | _ :: rest, skip + 1, cur => piecesFrom sep rest skip cur
  | c :: rest, 0, cur =>
    if sep.isPrefixOf (c :: rest) then cur.reverse :: piecesFrom sep rest (sep.length - 1) []
    else piecesFrom sep rest 0 (c :: cur)

/-- The pieces of `v` between successive occurrences of `sep`, empty pieces
included. -/
def pieces (sep v : GoString) : List GoString :=
  piecesFrom sep v 0 []

/-- The number of occurrences of `sep` in `v`: the number of places of `v`
where a copy of `sep` starts. -/
def occurrences (sep v : GoString) : Nat :=
  (v.tails.filter (fun t => sep.isPrefixOf t)).length

/-- A base-10 integer literal whose value is in the `int64` range: the
specification's valid integer string. -/
def isInt64Literal (v : GoString) : Prop :=
  ∃ sign ∈ signs, ∃ ds ∈ v.tails,
    isDigits ds ∧ v = sign ++ ds ∧ isInt64 (literalValue sign ds)

instance (v : GoString) : Decidable (isInt64Literal v) := by
  unfold isInt64Literal; exact inferInstance

end spec

/-! ## Basic facts about outcomes and the environment -/

@[simp] theorem Outcome.pure_eq_ret {α : Type} (v : α) :
    (pure v : Outcome α) = Outcome.ret v := rfl

@[simp] theorem Outcome.bind_eq_bind {α β : Type} (x : Outcome α) (f : α → Outcome β) :
    (x >>= f) = Outcome.bind x f := rfl

@[simp] theorem Outcome.ret_bind {α β : Type} (v : α) (f : α → Outcome β) :
    Outcome.bind (Outcome.ret v) f = f v := by
  simp [Outcome.bind, Outcome.ret]

@[simp] theorem Outcome.panic_bind {α β : Type} (m : GoString) (f : α → Outcome β) :
    Outcome.bind (Outcome.panic m : Outcome α) f = Outcome.panic m := by
  simp [Outcome.bind, Outcome.panic]

@[simp] theorem Outcome.bind_ret {α β : Type} (x : Outcome α) (g : α → β) :
    (Outcome.bind x (fun v => Outcome.ret (g v))).faults = x.faults := by
  rcases x with ⟨l, r⟩
  cases r <;> simp [Outcome.bind, Outcome.ret, Outcome.faults]

@[simp] theorem Outcome.faults_ret {α : Type} (v : α) : (Outcome.ret v).faults = false := rfl

@[simp] theorem Outcome.faults_panic {α : Type} (m : GoString) :
    (Outcome.panic m : Outcome α).faults = true := rfl

@[simp] theorem Outcome.result_ret {α : Type} (v : α) :
    (Outcome.ret v).result = Result.ret v := rfl

@[simp] theorem Outcome.log_ret {α : Type} (v : α) : (Outcome.ret v).log = [] := rfl

theorem os.Getenv_of_unset (e : Env) (N : GoString) (h : e N = none) : os.Getenv e N = [] := by
  simp [os.Getenv, h]

theorem os.Getenv_of_set (e : Env) (N v : GoString) (h : e N = some v) : os.Getenv e N = v := by
  simp [os.Getenv, h]

/-- A lookup is empty exactly when the name is unset or set to "". -/
theorem os.Getenv_eq_nil_iff (e : Env) (N : GoString) :
    os.Getenv e N = [] ↔ (e N = none ∨ e N = some []) := by
  unfold os.Getenv
  cases h : e N <;> simp

/-- Setting a name to "" and unsetting it give the same lookups. -/
theorem os.Getenv_Setenv_nil (e : Env) (N M : GoString) :
    os.Getenv (os.Setenv e N []) M = os.Getenv (os.Unsetenv e N) M := by
  unfold os.Getenv os.Setenv os.Unsetenv
  by_cases h : M = N <;> simp [h]

theorem toInt64_of_isInt64 (x : Int) (h : isInt64 x) : toInt64 x = x := by
  unfold isInt64 at h
  unfold toInt64
  have h1 : (x + 2 ^ 63) % 2 ^ 64 = x + 2 ^ 63 := by
    apply Int.emod_eq_of_lt <;> omega
  omega

theorem toInt_of_isInt (w : Nat) (hw : w = 32 ∨ w = 64) (x : Int) (h : isInt w x) :
    toInt w x = x := by
  unfold isInt at h
  unfold toInt
  rcases hw with rfl | rfl
  · have h1 : (x + 2 ^ (32 - 1)) % 2 ^ 32 = x + 2 ^ (32 - 1) := by
      apply Int.emod_eq_of_lt <;> norm_num at h ⊢ <;> omega
    omega
  · have h1 : (x + 2 ^ (64 - 1)) % 2 ^ 64 = x + 2 ^ (64 - 1) := by
      apply Int.emod_eq_of_lt <;> norm_num at h ⊢ <;> omega
    omega

theorem isInt64_of_isInt (w : Nat) (hw : w = 32 ∨ w = 64) (x : Int) (h : isInt w x) :
    isInt64 x := by
  unfold isInt at h
  unfold isInt64
  rcases hw with rfl | rfl
  · norm_num at h ⊢; omega
  · norm_num at h ⊢; omega

/-! ## The accessors on an unset, empty or set variable -/

namespace env

theorem getVar_of_nil (e : Env) (N D : GoString) (warn : Bool) (h : os.Getenv e N = []) :
    getVar e N D warn =
      if warn then
        ⟨[fmt.Sprintln [str "Using fallback default value for env var.", str "var", N,
          str "default", D]], Result.ret D⟩
      else Outcome.ret D := by
  unfold getVar
  cases warn <;>
    simp [h, Outcome.bind, Outcome.ret, log.Println, Outcome.emit]

theorem getVar_of_ne_nil (e : Env) (N D : GoString) (warn : Bool) (h : os.Getenv e N ≠ []) :
    getVar e N D warn = Outcome.ret (os.Getenv e N) := by
  unfold getVar
  simp [h]

theorem MandatoryVar_of_nil (e : Env) (N : GoString) (h : os.Getenv e N = []) :
    MandatoryVar e N = Outcome.panic (fmt.Sprintf1 "Missing mandatory env var name " N) := by
  unfold MandatoryVar
  simp [h]

theorem MandatoryVar_of_ne_nil (e : Env) (N : GoString) (h : os.Getenv e N ≠ []) :
    MandatoryVar e N = Outcome.ret (os.Getenv e N) := by
  unfold MandatoryVar
  simp [h]

theorem VarAsBool_of_nil (e : Env) (N : GoString) (D : Bool) (h : os.Getenv e N = []) :
    VarAsBool e N D = Outcome.ret D := by
  unfold VarAsBool
  simp [h]

theorem VarAsInt64_of_nil (e : Env) (N : GoString) (D : Int) (h : os.Getenv e N = []) :
    VarAsInt64 e N D = Outcome.ret D := by
  unfold VarAsInt64
  simp [h]

theorem VarAsInt_of_nil (w : Nat) (e : Env) (N : GoString) (D : Int)
    (h : os.Getenv e N = []) : VarAsInt w e N D = Outcome.ret (toInt w (toInt64 D)) := by
  unfold VarAsInt
  simp [VarAsInt64_of_nil e N _ h]

theorem VarAsStringSlice_of_nil (e : Env) (N : GoString) (D : List GoString) (c : Int)
    (h : os.Getenv e N = []) : VarAsStringSlice e N D c = Outcome.ret D := by
  unfold VarAsStringSlice
  simp [h]

end env

/-! ## Claims -/

/-- C1: when `N` is unset, `Var`, `ImportantVar`, `VarAsBool`, `VarAsInt` and
`VarAsInt64` return the default unchanged (`VarAsInt` through the widening to
`int64` and the narrowing back), and `VarAsStringSlice` returns the default
list itself for every delimiter. -/
theorem env.unset_returns_default (intSize : Nat) (hw : intSize = 32 ∨ intSize = 64)
    (e : Env) (N : GoString) (hN : e N = none)
    (D : GoString) (Db : Bool) (Di : Int) (hDi : isInt intSize Di)
    (D64 : Int) (Dl : List GoString) (delim : Int) :
    env.Var e N D = Outcome.ret D
    ∧ (env.ImportantVar e N D).result = Result.ret D
    ∧ env.VarAsBool e N Db = Outcome.ret Db
    ∧ env.VarAsInt intSize e N Di = Outcome.ret Di
    ∧ env.VarAsInt64 e N D64 = Outcome.ret D64
    ∧ env.VarAsStringSlice e N Dl delim = Outcome.ret Dl := by
  have h := os.Getenv_of_unset e N hN
  refine ⟨?_, ?_, env.VarAsBool_of_nil e N Db h, ?_, env.VarAsInt64_of_nil e N D64 h,
    env.VarAsStringSlice_of_nil e N Dl delim h⟩
  · simp [env.Var, env.getVar_of_nil e N D false h]
  · simp [env.ImportantVar, env.getVar_of_nil e N D true h]
  · rw [env.VarAsInt_of_nil intSize e N Di h,
      toInt64_of_isInt64 Di (isInt64_of_isInt intSize hw Di hDi),
      toInt_of_isInt intSize hw Di hDi]

/-- Witness of C1: `RETRIES` unset in the empty environment, defaults "x",
true, 3, 2^40 and ["a,b"] with delimiter `,`. -/
theorem env.unset_returns_default_witness :
    (os.emptyEnv (str "RETRIES") = none ∧ isInt 32 3)
    ∧ (env.Var os.emptyEnv (str "RETRIES") (str "x") = Outcome.ret (str "x")
      ∧ (env.ImportantVar os.emptyEnv (str "RETRIES") (str "x")).result = Result.ret (str "x")
      ∧ env.VarAsBool os.emptyEnv (str "RETRIES") true = Outcome.ret true
      ∧ env.VarAsInt 32 os.emptyEnv (str "RETRIES") 3 = Outcome.ret 3
      ∧ env.VarAsInt64 os.emptyEnv (str "RETRIES") (2 ^ 40) = Outcome.ret (2 ^ 40)
      ∧ env.VarAsStringSlice os.emptyEnv (str "RETRIES") [str "a,b"] 44
          = Outcome.ret [str "a,b"]) :=
  ⟨⟨rfl, by decide⟩,
    env.unset_returns_default 32 (Or.inl rfl) os.emptyEnv (str "RETRIES") rfl (str "x") true 3
      (by decide) (2 ^ 40) [str "a,b"] 44⟩

/-- C2: `MandatoryVar(N)` panics if and only if `N` is unset or set to the
empty string; when `N` is set to a non-empty value it returns exactly that
value. -/
theorem env.mandatoryVar_faults_iff (e : Env) (N : GoString) :
    ((env.MandatoryVar e N).faults = true ↔ (e N = none ∨ e N = some []))
    ∧ (∀ v : GoString, e N = some v → v ≠ [] → env.MandatoryVar e N = Outcome.ret v) := by
  constructor
  · by_cases h : os.Getenv e N = []
    · simp [env.MandatoryVar_of_nil e N h, (os.Getenv_eq_nil_iff e N).mp h]
    · have h2 := (os.Getenv_eq_nil_iff e N).not.mp h
      rw [env.MandatoryVar_of_ne_nil e N h]
      simpa using h2
  · intro v hv hne
    have h : os.Getenv e N = v := os.Getenv_of_set e N v hv
    rw [env.MandatoryVar_of_ne_nil e N (by rw [h]; exact hne), h]

/-- Witness of C2: `MISSING_KEY` unset panics, and set to "hello" gives
"hello". -/
theorem env.mandatoryVar_faults_iff_witness :
    (env.MandatoryVar os.emptyEnv (str "MISSING_KEY")).faults = true
    ∧ env.MandatoryVar (os.Setenv os.emptyEnv (str "MISSING_KEY") (str "hello"))
        (str "MISSING_KEY") = Outcome.ret (str "hello") :=
  ⟨(env.mandatoryVar_faults_iff os.emptyEnv (str "MISSING_KEY")).1.mpr (Or.inl rfl),
    (env.mandatoryVar_faults_iff (os.Setenv os.emptyEnv (str "MISSING_KEY") (str "hello"))
      (str "MISSING_KEY")).2 (str "hello") (by decide) (by decide)⟩

/-- C3: for each of the eleven accessors and every argument list, the outcome
(log entries, returned value or panic message) in an environment where `N` is
set to the empty string equals the outcome in that environment with `N`
unset. -/
theorem env.empty_same_as_unset (intSize : Nat) (e : Env) (N M : GoString)
    (D : GoString) (Db : Bool) (Di : Int) (Dl : List GoString) (delim : Int) :
    env.Var (os.Setenv e N []) M D = env.Var (os.Unsetenv e N) M D
    ∧ env.ImportantVar (os.Setenv e N []) M D = env.ImportantVar (os.Unsetenv e N) M D
    ∧ env.MandatoryVar (os.Setenv e N []) M = env.MandatoryVar (os.Unsetenv e N) M
    ∧ env.VarAsBool (os.Setenv e N []) M Db = env.VarAsBool (os.Unsetenv e N) M Db
    ∧ env.MandatoryVarAsBool (os.Setenv e N []) M = env.MandatoryVarAsBool (os.Unsetenv e N) M
    ∧ env.VarAsInt intSize (os.Setenv e N []) M Di
        = env.VarAsInt intSize (os.Unsetenv e N) M Di
    ∧ env.MandatoryVarAsInt intSize (os.Setenv e N []) M
        = env.MandatoryVarAsInt intSize (os.Unsetenv e N) M
    ∧ env.VarAsInt64 (os.Setenv e N []) M Di = env.VarAsInt64 (os.Unsetenv e N) M Di
    ∧ env.MandatoryVarAsInt64 (os.Setenv e N []) M
        = env.MandatoryVarAsInt64 (os.Unsetenv e N) M
    ∧ env.VarAsStringSlice (os.Setenv e N []) M Dl delim
        = env.VarAsStringSlice (os.Unsetenv e N) M Dl delim
    ∧ env.MandatoryVarAsStringSlice (os.Setenv e N []) M delim
        = env.MandatoryVarAsStringSlice (os.Unsetenv e N) M delim := by
  have h := os.Getenv_Setenv_nil e N M
  refine ⟨?_, ?_, ?_, ?_, ?_, ?_, ?_, ?_, ?_, ?_, ?_⟩ <;>
    simp only [env.Var, env.ImportantVar, env.getVar, env.MandatoryVar, env.VarAsBool,
      env.MandatoryVarAsBool, env.VarAsInt, env.MandatoryVarAsInt, env.VarAsInt64,
      env.MandatoryVarAsInt64, env.VarAsStringSlice, env.MandatoryVarAsStringSlice, h]

/-- C4: when `N` is set to a non-empty string `v`, `Var`, `ImportantVar` and
`getVar` return exactly `v`, whatever the default, and log nothing. -/
theorem env.set_returns_value (e : Env) (N v : GoString) (hv : e N = some v) (hne : v ≠ [])
    (D : GoString) (warn : Bool) :
    env.Var e N D = Outcome.ret v
    ∧ env.ImportantVar e N D = Outcome.ret v
    ∧ env.getVar e N D warn = Outcome.ret v := by
  have h : os.Getenv e N = v := os.Getenv_of_set e N v hv
  have h2 : os.Getenv e N ≠ [] := by rw [h]; exact hne
  simp [env.Var, env.ImportantVar, env.getVar_of_ne_nil e N D _ h2, h]

/-- Witness of C4: `IMPORTANT_VAR` set to " candy land " (blanks kept) with
default "foobar". -/
theorem env.set_returns_value_witness :
    env.Var (os.Setenv os.emptyEnv (str "IMPORTANT_VAR") (str " candy land "))
        (str "IMPORTANT_VAR") (str "foobar") = Outcome.ret (str " candy land ")
    ∧ env.ImportantVar (os.Setenv os.emptyEnv (str "IMPORTANT_VAR") (str " candy land "))
        (str "IMPORTANT_VAR") (str "foobar") = Outcome.ret (str " candy land ")
    ∧ env.getVar (os.Setenv os.emptyEnv (str "IMPORTANT_VAR") (str " candy land "))
        (str "IMPORTANT_VAR") (str "foobar") true = Outcome.ret (str " candy land ") :=
  env.set_returns_value (os.Setenv os.emptyEnv (str "IMPORTANT_VAR") (str " candy land "))
    (str "IMPORTANT_VAR") (str " candy land ") (by decide) (by decide) (str "foobar") true

/-- Each string operand of `fmt.Sprintln` occurs in its output. -/
theorem fmt.infix_Sprintln (a : GoString) (args : List GoString) (h : a ∈ args) :
    a <:+: fmt.Sprintln args := by
  induction args with
  | nil => cases h
  | cons b rest ih =>
    cases rest with
    | nil =>
      simp only [List.mem_singleton] at h
      subst h
      exact ⟨[], [10], by simp [fmt.Sprintln]⟩
    | cons b2 rest2 =>
      rcases List.mem_cons.mp h with rfl | h2
      · exact ⟨[], 32 :: fmt.Sprintln (b2 :: rest2), by simp [fmt.Sprintln]⟩
      · obtain ⟨s, t, hst⟩ := ih h2
        refine ⟨b ++ 32 :: s, t, ?_⟩
        simp [fmt.Sprintln, ← hst]

/-- C5: with the log as an output list, `ImportantVar(N, D)` returns what
`Var(N, D)` returns; `Var` logs nothing; `ImportantVar` logs exactly when `N`
is unset or empty, and then exactly one entry, which contains both `N` and
`D`. -/
theorem env.importantVar_warns_iff_absent (e : Env) (N D : GoString) :
    (env.ImportantVar e N D).result = (env.Var e N D).result
    ∧ (env.Var e N D).log = []
    ∧ ((env.ImportantVar e N D).log ≠ [] ↔ (e N = none ∨ e N = some []))
    ∧ (env.ImportantVar e N D).log
        = (if e N = none ∨ e N = some [] then [spec.warning N D] else [])
    ∧ N <:+: spec.warning N D
    ∧ D <:+: spec.warning N D := by
  have hN : N <:+: spec.warning N D := fmt.infix_Sprintln N _ (by simp)
  have hD : D <:+: spec.warning N D := fmt.infix_Sprintln D _ (by simp)
  by_cases h : os.Getenv e N = []
  · have h2 := (os.Getenv_eq_nil_iff e N).mp h
    simp [env.Var, env.ImportantVar, env.getVar_of_nil e N D _ h, h2, spec.warning, hN, hD]
    exact ⟨hN, hD⟩
  · have h2 := (os.Getenv_eq_nil_iff e N).not.mp h
    simp [env.Var, env.ImportantVar, env.getVar_of_ne_nil e N D _ h, h2, hN, hD]

/-! ## Booleans -/

theorem strconv.ParseBool_of_mem_trueLiterals (v : GoString) (h : v ∈ spec.trueLiterals) :
    strconv.ParseBool v = (true, none) ∧ v ≠ [] := by
  simp only [spec.trueLiterals, List.mem_cons, List.mem_singleton, List.not_mem_nil,
    or_false] at h
  rcases h with rfl | rfl | rfl | rfl | rfl | rfl <;> decide

theorem strconv.ParseBool_of_mem_falseLiterals (v : GoString) (h : v ∈ spec.falseLiterals) :
    strconv.ParseBool v = (false, none) ∧ v ≠ [] := by
  simp only [spec.falseLiterals, List.mem_cons, List.mem_singleton, List.not_mem_nil,
    or_false] at h
  rcases h with rfl | rfl | rfl | rfl | rfl | rfl <;> decide

theorem strconv.ParseBool_of_not_mem (v : GoString) (ht : v ∉ spec.trueLiterals)
    (hf : v ∉ spec.falseLiterals) : strconv.ParseBool v = (false, some NumError.errSyntax) := by
  simp only [spec.trueLiterals, spec.falseLiterals, List.mem_cons, List.mem_singleton,
    List.not_mem_nil, or_false] at ht hf
  unfold strconv.ParseBool
  rw [if_neg ht, if_neg hf]

namespace env

theorem VarAsBool_of_parsed (e : Env) (N : GoString) (D b : Bool)
    (hne : os.Getenv e N ≠ []) (hp : strconv.ParseBool (os.Getenv e N) = (b, none)) :
    VarAsBool e N D = Outcome.ret b := by
  unfold VarAsBool
  simp [hne, hp]

theorem VarAsBool_of_unparsed (e : Env) (N : GoString) (D b : Bool) (err : strconv.NumError)
    (hp : strconv.ParseBool (os.Getenv e N) = (b, some err)) :
    VarAsBool e N D = Outcome.ret D := by
  unfold VarAsBool
  by_cases h : os.Getenv e N = [] <;> simp [h, hp]

theorem MandatoryVarAsBool_of_parsed (e : Env) (N : GoString) (b : Bool)
    (hne : os.Getenv e N ≠ []) (hp : strconv.ParseBool (os.Getenv e N) = (b, none)) :
    MandatoryVarAsBool e N = Outcome.ret b := by
  unfold MandatoryVarAsBool
  simp [MandatoryVar_of_ne_nil e N hne, hp]

theorem MandatoryVarAsBool_of_unparsed (e : Env) (N : GoString) (b : Bool)
    (err : strconv.NumError) (hne : os.Getenv e N ≠ [])
    (hp : strconv.ParseBool (os.Getenv e N) = (b, some err)) :
    MandatoryVarAsBool e N = Outcome.panic
      (fmt.Sprintf2 "Invalid bool value for env var name " N " value " (os.Getenv e N)) := by
  unfold MandatoryVarAsBool
  simp [MandatoryVar_of_ne_nil e N hne, hp]

end env

/-- C6, as stated, fails: "tRUE" is `true` when letter case is ignored, yet
`VarAsBool` falls back to the default `false` and `MandatoryVarAsBool`
panics. -/
theorem env.bool_mixed_case_rejected :
    spec.asciiLower (str "tRUE") ∈ spec.trueForms
    ∧ env.VarAsBool (os.Setenv os.emptyEnv (str "FLAG") (str "tRUE")) (str "FLAG") false
        = Outcome.ret false
    ∧ env.VarAsBool (os.Setenv os.emptyEnv (str "FLAG") (str "tRUE")) (str "FLAG") false
        ≠ Outcome.ret true
    ∧ (env.MandatoryVarAsBool (os.Setenv os.emptyEnv (str "FLAG") (str "tRUE"))
        (str "FLAG")).faults = true := by
  decide

/-- C6, amended: when `N` is set to one of the spellings `1 t T true TRUE True`
(respectively `0 f F false FALSE False`), `VarAsBool(N, D)` and
`MandatoryVarAsBool(N)` return true (respectively false) for every default and
`MandatoryVarAsBool` does not panic; these twelve spellings are the only ones
accepted: when `N` is set to anything else, `VarAsBool(N, D)` returns `D` and
`MandatoryVarAsBool(N)` panics. -/
theorem env.bool_literals_parse (e : Env) (N v : GoString) (hv : e N = some v) (D : Bool) :
    (v ∈ spec.trueLiterals →
      env.VarAsBool e N D = Outcome.ret true ∧ env.MandatoryVarAsBool e N = Outcome.ret true)
    ∧ (v ∈ spec.falseLiterals →
      env.VarAsBool e N D = Outcome.ret false
        ∧ env.MandatoryVarAsBool e N = Outcome.ret false)
    ∧ (v ∉ spec.trueLiterals → v ∉ spec.falseLiterals →
      env.VarAsBool e N D = Outcome.ret D ∧ (env.MandatoryVarAsBool e N).faults = true) := by
  have h : os.Getenv e N = v := os.Getenv_of_set e N v hv
  refine ⟨?_, ?_, ?_⟩
  · intro hm
    obtain ⟨hp, hne⟩ := strconv.ParseBool_of_mem_trueLiterals v hm
    rw [← h] at hp hne
    exact ⟨env.VarAsBool_of_parsed e N D true hne hp,
      env.MandatoryVarAsBool_of_parsed e N true hne hp⟩
  · intro hm
    obtain ⟨hp, hne⟩ := strconv.ParseBool_of_mem_falseLiterals v hm
    rw [← h] at hp hne
    exact ⟨env.VarAsBool_of_parsed e N D false hne hp,
      env.MandatoryVarAsBool_of_parsed e N false hne hp⟩
  · intro ht hf
    have hp := strconv.ParseBool_of_not_mem v ht hf
    rw [← h] at hp
    refine ⟨env.VarAsBool_of_unparsed e N D false _ hp, ?_⟩
    by_cases hnil : os.Getenv e N = []
    · unfold env.MandatoryVarAsBool
      simp [env.MandatoryVar_of_nil e N hnil]
    · rw [env.MandatoryVarAsBool_of_unparsed e N false _ hnil hp]
      rfl

/-- Witness of C6 amended: `FLAG` set to "TRUE" with default false, to "F"
with default true, and to "yes" with default false. -/
theorem env.bool_literals_parse_witness :
    (env.VarAsBool (os.Setenv os.emptyEnv (str "FLAG") (str "TRUE")) (str "FLAG") false
        = Outcome.ret true
      ∧ env.MandatoryVarAsBool (os.Setenv os.emptyEnv (str "FLAG") (str "TRUE")) (str "FLAG")
        = Outcome.ret true)
    ∧ (env.VarAsBool (os.Setenv os.emptyEnv (str "FLAG") (str "F")) (str "FLAG") true
        = Outcome.ret false
      ∧ env.MandatoryVarAsBool (os.Setenv os.emptyEnv (str "FLAG") (str "F")) (str "FLAG")
        = Outcome.ret false)
    ∧ (env.VarAsBool (os.Setenv os.emptyEnv (str "FLAG") (str "yes")) (str "FLAG") false
        = Outcome.ret false
      ∧ (env.MandatoryVarAsBool (os.Setenv os.emptyEnv (str "FLAG") (str "yes"))
        (str "FLAG")).faults = true) :=
  ⟨(env.bool_literals_parse (os.Setenv os.emptyEnv (str "FLAG") (str "TRUE")) (str "FLAG")
      (str "TRUE") (by decide) false).1 (by decide),
    (env.bool_literals_parse (os.Setenv os.emptyEnv (str "FLAG") (str "F")) (str "FLAG")
      (str "F") (by decide) true).2.1 (by decide),
    (env.bool_literals_parse (os.Setenv os.emptyEnv (str "FLAG") (str "yes")) (str "FLAG")
      (str "yes") (by decide) false).2.2 (by decide) (by decide)⟩

/-- C7: round trip with `strconv.FormatBool`: when `N` is set to
`FormatBool(b)`, `VarAsBool(N, D)` returns `b` for every default `D` and
`MandatoryVarAsBool(N)` returns `b` without panicking. -/
theorem env.formatBool_round_trip (e : Env) (N : GoString) (b D : Bool)
    (hv : e N = some (strconv.FormatBool b)) :
    env.VarAsBool e N D = Outcome.ret b ∧ env.MandatoryVarAsBool e N = Outcome.ret b := by
  have h : os.Getenv e N = strconv.FormatBool b := os.Getenv_of_set e N _ hv
  have hp : strconv.ParseBool (strconv.FormatBool b) = (b, none) ∧ strconv.FormatBool b ≠ [] := by
    cases b <;> decide
  rw [← h] at hp
  exact ⟨env.VarAsBool_of_parsed e N D b hp.2 hp.1, env.MandatoryVarAsBool_of_parsed e N b hp.2 hp.1⟩

/-- Witness of C7: `FLAG` set to `FormatBool(false)` with default true. -/
theorem env.formatBool_round_trip_witness :
    env.VarAsBool (os.Setenv os.emptyEnv (str "FLAG") (strconv.FormatBool false)) (str "FLAG")
        true = Outcome.ret false
    ∧ env.MandatoryVarAsBool (os.Setenv os.emptyEnv (str "FLAG") (strconv.FormatBool false))
        (str "FLAG") = Outcome.ret false :=
  env.formatBool_round_trip (os.Setenv os.emptyEnv (str "FLAG") (strconv.FormatBool false))
    (str "FLAG") false true (by decide)

/-- C8: when `N` is set to a non-empty string that is none of the accepted
boolean spellings, `VarAsBool(N, D)` returns `D` and `MandatoryVarAsBool(N)`
panics. -/
theorem env.non_bool_falls_back_or_faults (e : Env) (N v : GoString) (hv : e N = some v)
    (hne : v ≠ []) (ht : v ∉ spec.trueLiterals) (hf : v ∉ spec.falseLiterals) (D : Bool) :
    env.VarAsBool e N D = Outcome.ret D ∧ (env.MandatoryVarAsBool e N).faults = true := by
  have h : os.Getenv e N = v := os.Getenv_of_set e N v hv
  have hp := strconv.ParseBool_of_not_mem v ht hf
  rw [← h] at hp hne
  refine ⟨env.VarAsBool_of_unparsed e N D false _ hp, ?_⟩
  rw [env.MandatoryVarAsBool_of_unparsed e N false _ hne hp]
  rfl

/-- Witness of C8: `FLAG` set to "maybe" with default true. -/
theorem env.non_bool_falls_back_or_faults_witness :
    env.VarAsBool (os.Setenv os.emptyEnv (str "FLAG") (str "maybe")) (str "FLAG") true
        = Outcome.ret true
    ∧ (env.MandatoryVarAsBool (os.Setenv os.emptyEnv (str "FLAG") (str "maybe"))
        (str "FLAG")).faults = true :=
  env.non_bool_falls_back_or_faults (os.Setenv os.emptyEnv (str "FLAG") (str "maybe"))
    (str "FLAG") (str "maybe") (by decide) (by decide) (by decide) (by decide) true

/-! ## Integers -/

/-- Reading more digits never lowers the value read so far. -/
theorem spec.le_foldl_digits (ds : GoString) (n : Nat) :
    n ≤ ds.foldl (fun a c => 10 * a + (c - 48)) n := by
  induction ds generalizing n with
  | nil => simp
  | cons c cs ih =>
    simp only [List.foldl_cons]
    have := ih (10 * n + (c - 48))
    omega

/-- On decimal digits whose value fits `uint64`, the loop of `ParseUint`
returns that value and no error. -/
theorem strconv.ParseUint_loop_digits (ds : GoString) (hd : ∀ c ∈ ds, 48 ≤ c ∧ c ≤ 57)
    (n : Nat) (hv : ds.foldl (fun a c => 10 * a + (c - 48)) n < 2 ^ 64) :
    strconv.ParseUint.loop 10 ((2 ^ 64 - 1) / 10 + 1) (2 ^ 64 - 1) ds n
      = (ds.foldl (fun a c => 10 * a + (c - 48)) n, none) := by
  induction ds generalizing n with
  | nil => simp [strconv.ParseUint.loop]
  | cons c cs ih =>
    have hc := hd c (List.mem_cons_self c cs)
    simp only [List.foldl_cons] at hv ⊢
    have hle := spec.le_foldl_digits cs (10 * n + (c - 48))
    have hlt : 10 * n + (c - 48) < 18446744073709551616 := by
      norm_num at hv; omega
    have h0 : n * 10 % 2 ^ 64 = n * 10 := by
      apply Nat.mod_eq_of_lt; norm_num; omega
    have h1 : (n * 10 + (c - 48)) % 2 ^ 64 = n * 10 + (c - 48) := by
      apply Nat.mod_eq_of_lt; norm_num; omega
    have hcut : ¬ n ≥ (2 ^ 64 - 1) / 10 + 1 := by norm_num; omega
    have hmax : ¬ (n * 10 + (c - 48) < n * 10 ∨ n * 10 + (c - 48) > 2 ^ 64 - 1) := by
      norm_num; omega
    have hd10 : ¬ c - 48 ≥ 10 := by omega
    have hrec := ih (fun x hx => hd x (List.mem_cons_of_mem c hx)) (10 * n + (c - 48)) hv
    have hcomm : n * 10 + (c - 48) = 10 * n + (c - 48) := by omega
    rw [strconv.ParseUint.loop]
    simp only [hc, and_self, if_true, h0, h1]
    rw [if_neg hd10, if_neg hcut, if_neg hmax, hcomm, hrec]

theorem strconv.ParseUint_digits (ds : GoString) (hd : spec.isDigits ds)
    (hv : spec.decimalValue ds < 2 ^ 64) :
    strconv.ParseUint ds 10 64 = (spec.decimalValue ds, none) := by
  unfold strconv.ParseUint
  rw [if_neg hd.1]
  simp only [spec.decimalValue] at hv ⊢
  have := strconv.ParseUint_loop_digits ds hd.2 0 hv
  simpa using this

theorem toInt64_neg_of_le (u : Nat) (h : u ≤ 2 ^ 63) :
    toInt64 (-toInt64 (u : Int)) = -(u : Int) := by
  unfold toInt64
  norm_num at h
  omega

theorem toInt64_natCast_of_lt (u : Nat) (h : u < 2 ^ 63) : toInt64 (u : Int) = (u : Int) := by
  unfold toInt64
  norm_num at h
  omega

/-- A base-10 literal whose value fits `int64` parses to that value. -/
theorem strconv.ParseInt_literal (sign ds : GoString) (hs : sign ∈ spec.signs)
    (hd : spec.isDigits ds) (hv : isInt64 (spec.literalValue sign ds)) :
    strconv.ParseInt (sign ++ ds) 10 64 = (spec.literalValue sign ds, none) := by
  obtain ⟨hne, hdig⟩ := hd
  simp only [spec.signs, List.mem_cons, List.mem_singleton, List.not_mem_nil, or_false] at hs
  unfold isInt64 spec.literalValue at hv
  rcases hs with rfl | rfl | rfl
  · -- no sign
    rw [if_neg (by decide)] at hv
    have hlt : spec.decimalValue ds < 9223372036854775808 := by
      have := hv.2; norm_num at this; omega
    have hp := strconv.ParseUint_digits ds ⟨hne, hdig⟩ (by norm_num; omega)
    have hcast := toInt64_natCast_of_lt (spec.decimalValue ds) (by norm_num; exact hlt)
    cases ds with
    | nil => exact absurd rfl hne
    | cons c cs =>
      have hc := hdig c (List.mem_cons_self c cs)
      have h43 : c ≠ 43 := by omega
      have h45 : c ≠ 45 := by omega
      simp [strconv.ParseInt, h43, h45, hp, hlt, spec.literalValue, hcast]
  · -- a plus sign
    rw [if_neg (by decide)] at hv
    have hlt : spec.decimalValue ds < 9223372036854775808 := by
      have := hv.2; norm_num at this; omega
    have hp := strconv.ParseUint_digits ds ⟨hne, hdig⟩ (by norm_num; omega)
    have hcast := toInt64_natCast_of_lt (spec.decimalValue ds) (by norm_num; exact hlt)
    simp [strconv.ParseInt, hp, hlt, spec.literalValue, hcast]
  · -- a minus sign
    rw [if_pos rfl] at hv
    have hle : spec.decimalValue ds ≤ 9223372036854775808 := by
      have := hv.1; norm_num at this; omega
    have hp := strconv.ParseUint_digits ds ⟨hne, hdig⟩ (by norm_num; omega)
    have hcast := toInt64_neg_of_le (spec.decimalValue ds) (by norm_num; exact hle)
    simp [strconv.ParseInt, hp, hle, spec.literalValue, hcast]

/-- The digit loop of `formatBits` writes a non-empty run of decimal digits
that denotes `u`, in front of what was already written. -/
theorem strconv.formatBits_loop_spec (fuel : Nat) :
    ∀ (u : Nat) (a : GoString), u ≤ fuel →
      ∃ ds : GoString, strconv.formatBits.loop fuel u a = ds ++ a ∧ spec.isDigits ds
        ∧ spec.decimalValue ds = u := by
  induction fuel with
  | zero =>
    intro u a hu
    have : u = 0 := by omega
    subst this
    exact ⟨[48], by simp [strconv.formatBits.loop], by decide, by decide⟩
  | succ k ih =>
    intro u a hu
    by_cases h10 : u ≥ 10
    · obtain ⟨ds, hds, hdig, hval⟩ := ih (u / 10) ((48 + u % 10) :: a) (by omega)
      refine ⟨ds ++ [48 + u % 10], ?_, ⟨by simp, ?_⟩, ?_⟩
      · rw [strconv.formatBits.loop, if_pos h10, hds]
        simp
      · intro c hc
        rcases List.mem_append.mp hc with hc | hc
        · exact hdig.2 c hc
        · simp only [List.mem_singleton] at hc
          omega
      · unfold spec.decimalValue at hval ⊢
        rw [List.foldl_append, hval]
        simp only [List.foldl_cons, List.foldl_nil]
        omega
    · refine ⟨[48 + u], ?_, ⟨by simp, ?_⟩, ?_⟩
      · rw [strconv.formatBits.loop, if_neg h10]
        simp
      · intro c hc
        simp only [List.mem_singleton] at hc
        omega
      · simp [spec.decimalValue]

/-- The text `FormatInt` writes is a base-10 literal that denotes the number. -/
theorem strconv.FormatInt_literal (n : Int) :
    ∃ sign ds : GoString, strconv.FormatInt n = sign ++ ds ∧ sign ∈ spec.signs
      ∧ spec.isDigits ds ∧ spec.literalValue sign ds = n := by
  by_cases hn : n < 0
  · obtain ⟨ds, hds, hdig, hval⟩ :=
      strconv.formatBits_loop_spec (-n).toNat (-n).toNat [] (Nat.le_refl _)
    refine ⟨[45], ds, ?_, by simp [spec.signs], hdig, ?_⟩
    · unfold strconv.FormatInt
      rw [if_pos hn, hds]
      simp
    · rw [spec.literalValue, if_pos rfl, hval]
      omega
  · obtain ⟨ds, hds, hdig, hval⟩ :=
      strconv.formatBits_loop_spec n.toNat n.toNat [] (Nat.le_refl _)
    refine ⟨[], ds, ?_, by simp [spec.signs], hdig, ?_⟩
    · unfold strconv.FormatInt
      rw [if_neg hn, hds]
      simp
    · rw [spec.literalValue, if_neg (by decide), hval]
      omega

/-- Parsing what `FormatInt` wrote gives the number back. -/
theorem strconv.ParseInt_FormatInt (n : Int) (hn : isInt64 n) :
    strconv.ParseInt (strconv.FormatInt n) 10 64 = (n, none) ∧ strconv.FormatInt n ≠ [] := by
  obtain ⟨sign, ds, hf, hs, hd, hv⟩ := strconv.FormatInt_literal n
  have hp := strconv.ParseInt_literal sign ds hs hd (by rw [hv]; exact hn)
  rw [hf, hp, hv]
  refine ⟨rfl, ?_⟩
  intro h
  exact hd.1 (List.append_eq_nil.mp h).2

namespace env

theorem VarAsInt64_of_parsed (e : Env) (N : GoString) (D n : Int)
    (hne : os.Getenv e N ≠ []) (hp : strconv.ParseInt (os.Getenv e N) 10 64 = (n, none)) :
    VarAsInt64 e N D = Outcome.ret n := by
  unfold VarAsInt64
  simp [hne, hp]

theorem MandatoryVarAsInt64_of_parsed (e : Env) (N : GoString) (n : Int)
    (hne : os.Getenv e N ≠ []) (hp : strconv.ParseInt (os.Getenv e N) 10 64 = (n, none)) :
    MandatoryVarAsInt64 e N = Outcome.ret n := by
  unfold MandatoryVarAsInt64
  simp [MandatoryVar_of_ne_nil e N hne, hp]

/-- The int64 accessor always returns, and logs nothing. -/
theorem VarAsInt64_returns (e : Env) (N : GoString) (D : Int) :
    ∃ x, VarAsInt64 e N D = Outcome.ret x := by
  by_cases h : os.Getenv e N = []
  · exact ⟨D, VarAsInt64_of_nil e N D h⟩
  · rcases hp : strconv.ParseInt (os.Getenv e N) 10 64 with ⟨iv, err⟩
    cases err with
    | none => exact ⟨iv, VarAsInt64_of_parsed e N D iv h hp⟩
    | some er =>
      refine ⟨D, ?_⟩
      unfold VarAsInt64
      simp [h, hp]

theorem MandatoryVarAsInt64_of_nil (e : Env) (N : GoString) (h : os.Getenv e N = []) :
    MandatoryVarAsInt64 e N
      = Outcome.panic (fmt.Sprintf1 "Missing mandatory env var name " N) := by
  unfold MandatoryVarAsInt64
  simp [MandatoryVar_of_nil e N h]

theorem MandatoryVarAsInt64_of_unparsed (e : Env) (N : GoString) (n : Int)
    (err : strconv.NumError) (hne : os.Getenv e N ≠ [])
    (hp : strconv.ParseInt (os.Getenv e N) 10 64 = (n, some err)) :
    MandatoryVarAsInt64 e N = Outcome.panic
      (fmt.Sprintf2 "Invalid int value for env var name " N " value " (os.Getenv e N)) := by
  unfold MandatoryVarAsInt64
  simp [MandatoryVar_of_ne_nil e N hne, hp]

/-- The mandatory int64 accessor either returns or panics, and logs nothing. -/
theorem MandatoryVarAsInt64_cases (e : Env) (N : GoString) :
    (∃ x, MandatoryVarAsInt64 e N = Outcome.ret x)
    ∨ (∃ m, MandatoryVarAsInt64 e N = Outcome.panic m) := by
  by_cases h : os.Getenv e N = []
  · exact Or.inr ⟨_, MandatoryVarAsInt64_of_nil e N h⟩
  · rcases hp : strconv.ParseInt (os.Getenv e N) 10 64 with ⟨iv, err⟩
    cases err with
    | none => exact Or.inl ⟨iv, MandatoryVarAsInt64_of_parsed e N iv h hp⟩
    | some er => exact Or.inr ⟨_, MandatoryVarAsInt64_of_unparsed e N iv er h hp⟩

end env

/-- The conversion to a native `int` is the specification's narrowing. -/
theorem toInt_narrows (w : Nat) (hw : w = 32 ∨ w = 64) (x : Int) :
    spec.narrows w x (toInt w x) := by
  unfold spec.narrows isInt toInt
  rcases hw with rfl | rfl
  · norm_num
    omega
  · norm_num
    omega

/-- C9: when `N` is set to a base-10 integer literal (an optional sign, then
one or more decimal digits) whose value `n` is in the `int64` range,
`VarAsInt64(N, D)` returns `n` for every default `D` and
`MandatoryVarAsInt64(N)` returns `n` without panicking; in particular this
holds when `N` is set to the decimal rendering `FormatInt(n, 10)` of an
`int64` `n`. -/
theorem env.int64_literal_parses (e : Env) (N : GoString) (D : Int) :
    (∀ sign ds : GoString, e N = some (sign ++ ds) → sign ∈ spec.signs → spec.isDigits ds →
        isInt64 (spec.literalValue sign ds) →
        env.VarAsInt64 e N D = Outcome.ret (spec.literalValue sign ds)
        ∧ env.MandatoryVarAsInt64 e N = Outcome.ret (spec.literalValue sign ds))
    ∧ (∀ n : Int, isInt64 n → e N = some (strconv.FormatInt n) →
        env.VarAsInt64 e N D = Outcome.ret n ∧ env.MandatoryVarAsInt64 e N = Outcome.ret n) := by
  constructor
  · intro sign ds hv hs hd hr
    have h : os.Getenv e N = sign ++ ds := os.Getenv_of_set e N _ hv
    have hp := strconv.ParseInt_literal sign ds hs hd hr
    have hne : os.Getenv e N ≠ [] := by
      rw [h]
      intro hnil
      exact hd.1 (List.append_eq_nil.mp hnil).2
    rw [← h] at hp
    exact ⟨env.VarAsInt64_of_parsed e N D _ hne hp, env.MandatoryVarAsInt64_of_parsed e N _ hne hp⟩
  · intro n hn hv
    have h : os.Getenv e N = strconv.FormatInt n := os.Getenv_of_set e N _ hv
    obtain ⟨hp, hne⟩ := strconv.ParseInt_FormatInt n hn
    rw [← h] at hp hne
    exact ⟨env.VarAsInt64_of_parsed e N D _ hne hp, env.MandatoryVarAsInt64_of_parsed e N _ hne hp⟩

/-- Witness of C9: `N` set to "-9223372036854775808" (sign `-`, then the
digits) with default 7, and `N` set to `FormatInt(4294967296, 10)`. -/
theorem env.int64_literal_parses_witness :
    (env.VarAsInt64 (os.Setenv os.emptyEnv (str "N") (str "-9223372036854775808")) (str "N") 7
        = Outcome.ret (-9223372036854775808)
      ∧ env.MandatoryVarAsInt64 (os.Setenv os.emptyEnv (str "N") (str "-9223372036854775808"))
        (str "N") = Outcome.ret (-9223372036854775808))
    ∧ (env.VarAsInt64 (os.Setenv os.emptyEnv (str "N") (strconv.FormatInt 4294967296))
        (str "N") 7 = Outcome.ret 4294967296
      ∧ env.MandatoryVarAsInt64 (os.Setenv os.emptyEnv (str "N") (strconv.FormatInt 4294967296))
        (str "N") = Outcome.ret 4294967296) :=
  ⟨(env.int64_literal_parses (os.Setenv os.emptyEnv (str "N") (str "-9223372036854775808"))
      (str "N") 7).1 [45] (str "9223372036854775808") (by decide) (by decide) (by decide)
      (by decide),
    (env.int64_literal_parses (os.Setenv os.emptyEnv (str "N") (strconv.FormatInt 4294967296))
      (str "N") 7).2 4294967296 (by decide) (by decide)⟩

/-- C10: the native-width accessors are the narrowing of the int64 ones.
`VarAsInt(N, D)` is `VarAsInt64(N, D)` converted to the native width `w`, the
conversion being the value modulo 2^w in the signed range; `MandatoryVarAsInt(N)`
panics exactly when `MandatoryVarAsInt64(N)` does, with the same message, and
otherwise returns its result converted the same way; and when `N` is set to
`strconv.Itoa(n)` for a native int `n`, both return `n`. -/
theorem env.int_narrows_int64 (w : Nat) (hw : w = 32 ∨ w = 64) (e : Env) (N : GoString) :
    (∀ x : Int, spec.narrows w x (toInt w x))
    ∧ (∀ D : Int, isInt w D →
        ∃ x, env.VarAsInt64 e N D = Outcome.ret x
          ∧ env.VarAsInt w e N D = Outcome.ret (toInt w x))
    ∧ (env.MandatoryVarAsInt w e N).faults = (env.MandatoryVarAsInt64 e N).faults
    ∧ (∀ m : GoString, env.MandatoryVarAsInt64 e N = Outcome.panic m →
        env.MandatoryVarAsInt w e N = Outcome.panic m)
    ∧ (∀ x : Int, env.MandatoryVarAsInt64 e N = Outcome.ret x →
        env.MandatoryVarAsInt w e N = Outcome.ret (toInt w x))
    ∧ (∀ n D : Int, isInt w n → e N = some (strconv.Itoa n) →
        env.VarAsInt w e N D = Outcome.ret n ∧ env.MandatoryVarAsInt w e N = Outcome.ret n) := by
  refine ⟨toInt_narrows w hw, ?_, ?_, ?_, ?_, ?_⟩
  · intro D hD
    obtain ⟨x, hx⟩ := env.VarAsInt64_returns e N D
    refine ⟨x, hx, ?_⟩
    unfold env.VarAsInt
    rw [toInt64_of_isInt64 D (isInt64_of_isInt w hw D hD), hx]
    simp
  · unfold env.MandatoryVarAsInt
    simp
  · intro m hm
    unfold env.MandatoryVarAsInt
    rw [hm]
    simp
  · intro x hx
    unfold env.MandatoryVarAsInt
    rw [hx]
    simp
  · intro n D hn hv
    have h64 := isInt64_of_isInt w hw n hn
    have h : os.Getenv e N = strconv.FormatInt n := by
      rw [os.Getenv_of_set e N _ hv, strconv.Itoa, toInt64_of_isInt64 n h64]
    obtain ⟨hp, hne⟩ := strconv.ParseInt_FormatInt n h64
    rw [← h] at hp hne
    unfold env.VarAsInt env.MandatoryVarAsInt
    rw [env.VarAsInt64_of_parsed e N _ n hne hp, env.MandatoryVarAsInt64_of_parsed e N n hne hp]
    simp [toInt_of_isInt w hw n hn]

/-- Witness of C10 on a 32-bit platform: `N` set to `Itoa(-42)` gives -42, and
`N` set to "4294967297", which is 2^32 + 1, gives 1. -/
theorem env.int_narrows_int64_witness :
    (env.VarAsInt 32 (os.Setenv os.emptyEnv (str "N") (strconv.Itoa (-42))) (str "N") 7
        = Outcome.ret (-42)
      ∧ env.MandatoryVarAsInt 32 (os.Setenv os.emptyEnv (str "N") (strconv.Itoa (-42)))
        (str "N") = Outcome.ret (-42))
    ∧ env.MandatoryVarAsInt 32 (os.Setenv os.emptyEnv (str "N") (str "4294967297")) (str "N")
        = Outcome.ret 1 :=
  ⟨(env.int_narrows_int64 32 (Or.inl rfl) (os.Setenv os.emptyEnv (str "N") (strconv.Itoa (-42)))
      (str "N")).2.2.2.2.2 (-42) 7 (by decide) (by decide),
    (env.int_narrows_int64 32 (Or.inl rfl) (os.Setenv os.emptyEnv (str "N") (str "4294967297"))
      (str "N")).2.2.2.2.1 4294967297 (by decide)⟩

/-! ## Integers: what the parse rejects -/

/-- When the loop of `ParseUint` in base 10 ends without error, every byte it
read is a decimal digit. -/
theorem strconv.ParseUint_loop_ok_digits (cutoff maxVal : Nat) (ds : GoString) :
    ∀ (n u : Nat), strconv.ParseUint.loop 10 cutoff maxVal ds n = (u, none) →
      ∀ c ∈ ds, 48 ≤ c ∧ c ≤ 57 := by
  induction ds with
  | nil => intro n u _ c hc; cases hc
  | cons b bs ih =>
    intro n u h c hc
    rw [strconv.ParseUint.loop] at h
    by_cases hb : 48 ≤ b ∧ b ≤ 57
    · rcases List.mem_cons.mp hc with rfl | hc2
      · exact hb
      · simp only [hb, and_self, if_true] at h
        split at h
        · cases h
        · split at h
          · cases h
          · split at h
            · cases h
            · exact ih _ _ h c hc2
    · exfalso
      rw [if_neg hb] at h
      by_cases hl : 97 ≤ strconv.lower b ∧ strconv.lower b ≤ 122
      · rw [if_pos hl] at h
        have hd : strconv.lower b - 97 + 10 ≥ 10 := by omega
        simp only [hd, if_true] at h
        cases h
      · rw [if_neg hl] at h
        cases h

/-- When the loop of `ParseUint` reports a range error, the value it returns
is the largest one. -/
theorem strconv.ParseUint_loop_range (base cutoff maxVal : Nat) (ds : GoString) :
    ∀ (n u : Nat),
      strconv.ParseUint.loop base cutoff maxVal ds n = (u, some NumError.errRange) →
      u = maxVal := by
  induction ds with
  | nil => intro n u h; simp [strconv.ParseUint.loop] at h
  | cons b bs ih =>
    intro n u h
    rw [strconv.ParseUint.loop] at h
    split at h
    · cases h
    · split at h
      · cases h
      · split at h
        · cases h; rfl
        · simp only at h
          split at h
          · cases h; rfl
          · exact ih _ _ h

/-- On decimal digits whose value does not fit `uint64`, the loop of
`ParseUint` reports a range error. -/
theorem strconv.ParseUint_loop_overflow (ds : GoString) (hd : ∀ c ∈ ds, 48 ≤ c ∧ c ≤ 57) :
    ∀ n : Nat, n < 2 ^ 64 → 2 ^ 64 ≤ ds.foldl (fun a c => 10 * a + (c - 48)) n →
      strconv.ParseUint.loop 10 ((2 ^ 64 - 1) / 10 + 1) (2 ^ 64 - 1) ds n
        = (2 ^ 64 - 1, some NumError.errRange) := by
  induction ds with
  | nil =>
    intro n hn hv
    simp only [List.foldl_nil] at hv
    omega
  | cons c cs ih =>
    intro n hn hv
    have hc := hd c (List.mem_cons_self c cs)
    simp only [List.foldl_cons] at hv
    have hd10 : ¬ c - 48 ≥ 10 := by omega
    rw [strconv.ParseUint.loop]
    simp only [hc, and_self, if_true]
    rw [if_neg hd10]
    by_cases hcut : n ≥ (2 ^ 64 - 1) / 10 + 1
    · rw [if_pos hcut]
    · rw [if_neg hcut]
      have hn10 : n * 10 < 18446744073709551616 := by norm_num at hcut; omega
      have h0 : n * 10 % 2 ^ 64 = n * 10 := by
        apply Nat.mod_eq_of_lt; norm_num; exact hn10
      simp only [h0]
      by_cases hov : n * 10 + (c - 48) < 18446744073709551616
      · have h1 : (n * 10 + (c - 48)) % 2 ^ 64 = n * 10 + (c - 48) := by
          apply Nat.mod_eq_of_lt; norm_num; exact hov
        have hmax : ¬ (n * 10 + (c - 48) < n * 10 ∨ n * 10 + (c - 48) > 2 ^ 64 - 1) := by
          norm_num; omega
        have hcomm : n * 10 + (c - 48) = 10 * n + (c - 48) := by omega
        simp only [h1]
        rw [if_neg hmax, hcomm]
        exact ih (fun x hx => hd x (List.mem_cons_of_mem c hx)) _ (by norm_num; omega) hv
      · have h1 : (n * 10 + (c - 48)) % 2 ^ 64 = n * 10 + (c - 48) - 18446744073709551616 := by
          norm_num; omega
        have hmax : (n * 10 + (c - 48)) % 2 ^ 64 < n * 10
            ∨ (n * 10 + (c - 48)) % 2 ^ 64 > 2 ^ 64 - 1 := by
          left; rw [h1]; omega
        rw [if_pos hmax]

theorem strconv.ParseUint_ok_digits (s : GoString) (u : Nat)
    (h : strconv.ParseUint s 10 64 = (u, none)) : spec.isDigits s := by
  unfold strconv.ParseUint at h
  by_cases hs : s = []
  · simp [hs] at h
  · rw [if_neg hs] at h
    simp only [Nat.reduceLeDiff, and_self, not_true_eq_false, if_false] at h
    norm_num at h
    exact ⟨hs, strconv.ParseUint_loop_ok_digits _ _ s 0 u h⟩

theorem strconv.ParseUint_range_max (s : GoString) (u : Nat)
    (h : strconv.ParseUint s 10 64 = (u, some NumError.errRange)) : u = 2 ^ 64 - 1 := by
  unfold strconv.ParseUint at h
  by_cases hs : s = []
  · simp [hs] at h
  · rw [if_neg hs] at h
    simp only [Nat.reduceLeDiff, and_self, not_true_eq_false, if_false] at h
    norm_num at h
    have := strconv.ParseUint_loop_range _ _ _ s 0 u h
    omega

theorem strconv.ParseUint_overflow (ds : GoString) (hd : spec.isDigits ds)
    (hv : 2 ^ 64 ≤ spec.decimalValue ds) :
    strconv.ParseUint ds 10 64 = (2 ^ 64 - 1, some NumError.errRange) := by
  unfold strconv.ParseUint
  rw [if_neg hd.1]
  have := strconv.ParseUint_loop_overflow ds hd.2 0 (by norm_num) hv
  simpa using this

/-- What `ParseInt` accepts in base 10 is an integer literal. -/
theorem strconv.ParseInt_ok_literal (v : GoString) (n : Int)
    (h : strconv.ParseInt v 10 64 = (n, none)) : spec.isIntLiteral v := by
  cases v with
  | nil => simp [strconv.ParseInt] at h
  | cons c cs =>
    unfold strconv.ParseInt at h
    simp only at h
    rcases hpu : strconv.ParseUint (if c = 43 then cs else if c = 45 then cs else c :: cs) 10 64
      with ⟨un, err⟩
    rw [hpu] at h
    cases err with
    | some er =>
      cases er with
      | errSyntax => simp at h
      | errBase => simp at h
      | errBitSize => simp at h
      | errRange =>
        have hmax := strconv.ParseUint_range_max _ _ hpu
        subst hmax
        by_cases hneg : c = 45 <;> simp [hneg] at h
    | none =>
      have hdig := strconv.ParseUint_ok_digits _ _ hpu
      by_cases h43 : c = 43
      · subst h43
        rw [if_pos rfl] at hdig
        exact ⟨[43], by simp [spec.signs], cs, by simp [List.mem_tails], hdig, rfl⟩
      · by_cases h45 : c = 45
        · subst h45
          rw [if_neg h43, if_pos rfl] at hdig
          exact ⟨[45], by simp [spec.signs], cs, by simp [List.mem_tails], hdig, rfl⟩
        · rw [if_neg h43, if_neg h45] at hdig
          exact ⟨[], by simp [spec.signs], c :: cs, by simp [List.mem_tails], hdig, rfl⟩

/-- A base-10 literal whose value does not fit `int64` is a range error. -/
theorem strconv.ParseInt_out_of_range (sign ds : GoString) (hs : sign ∈ spec.signs)
    (hd : spec.isDigits ds) (hv : ¬ isInt64 (spec.literalValue sign ds)) :
    strconv.ParseInt (sign ++ ds) 10 64
      = (if sign = [45] then -9223372036854775808 else 9223372036854775807,
          some NumError.errRange) := by
  have hpu : (strconv.ParseUint ds 10 64 = (spec.decimalValue ds, none)
        ∧ spec.decimalValue ds < 18446744073709551616)
      ∨ (strconv.ParseUint ds 10 64 = (18446744073709551615, some NumError.errRange)) := by
    by_cases hlt : spec.decimalValue ds < 18446744073709551616
    · exact Or.inl ⟨strconv.ParseUint_digits ds hd (by norm_num; exact hlt), hlt⟩
    · have := strconv.ParseUint_overflow ds hd (by norm_num; omega)
      norm_num at this
      exact Or.inr this
  obtain ⟨hne, hdig⟩ := hd
  simp only [spec.signs, List.mem_cons, List.mem_singleton, List.not_mem_nil, or_false] at hs
  unfold isInt64 spec.literalValue at hv
  rcases hs with rfl | rfl | rfl
  · rw [if_neg (by decide)] at hv
    have hge : 9223372036854775808 ≤ spec.decimalValue ds := by
      norm_num at hv; omega
    cases ds with
    | nil => exact absurd rfl hne
    | cons c cs =>
      have hc := hdig c (List.mem_cons_self c cs)
      have h43 : c ≠ 43 := by omega
      have h45 : c ≠ 45 := by omega
      rcases hpu with ⟨hp, _⟩ | hp
      · simp [strconv.ParseInt, h43, h45, hp, hge]
      · simp [strconv.ParseInt, h43, h45, hp]
  · rw [if_neg (by decide)] at hv
    have hge : 9223372036854775808 ≤ spec.decimalValue ds := by
      norm_num at hv; omega
    rcases hpu with ⟨hp, _⟩ | hp
    · simp [strconv.ParseInt, hp, hge]
    · simp [strconv.ParseInt, hp]
  · rw [if_pos rfl] at hv
    have hgt : 9223372036854775808 < spec.decimalValue ds := by
      norm_num at hv; omega
    rcases hpu with ⟨hp, _⟩ | hp
    · simp [strconv.ParseInt, hp, hgt]
    · simp [strconv.ParseInt, hp]

namespace env

theorem VarAsInt64_of_unparsed (e : Env) (N : GoString) (D n : Int) (err : strconv.NumError)
    (hp : strconv.ParseInt (os.Getenv e N) 10 64 = (n, some err)) :
    VarAsInt64 e N D = Outcome.ret D := by
  unfold VarAsInt64
  by_cases h : os.Getenv e N = [] <;> simp [h, hp]

theorem VarAsInt_of_default (w : Nat) (hw : w = 32 ∨ w = 64) (e : Env) (N : GoString)
    (D : Int) (hD : isInt w D) (h : VarAsInt64 e N (toInt64 D) = Outcome.ret (toInt64 D)) :
    VarAsInt w e N D = Outcome.ret D := by
  unfold VarAsInt
  rw [h]
  simp [toInt64_of_isInt64 D (isInt64_of_isInt w hw D hD), toInt_of_isInt w hw D hD]

theorem MandatoryVarAsInt_of_panic (w : Nat) (e : Env) (N m : GoString)
    (h : MandatoryVarAsInt64 e N = Outcome.panic m) :
    MandatoryVarAsInt w e N = Outcome.panic m := by
  unfold MandatoryVarAsInt
  rw [h]
  simp

theorem MandatoryVarAsInt_of_ret (w : Nat) (e : Env) (N : GoString) (x : Int)
    (h : MandatoryVarAsInt64 e N = Outcome.ret x) :
    MandatoryVarAsInt w e N = Outcome.ret (toInt w x) := by
  unfold MandatoryVarAsInt
  rw [h]
  simp

end env

/-- C11: when `N` is set to a non-empty string that is not a base-10 integer
literal, `VarAsInt(N, D)` and `VarAsInt64(N, D)` return `D` without panicking,
and `MandatoryVarAsInt(N)` and `MandatoryVarAsInt64(N)` panic. Scenario: with
`RETRIES` unset `VarAsInt("RETRIES", 3)` is 3, with `RETRIES` = "7" it is 7,
with `RETRIES` = "abc" it is 3. -/
theorem env.non_int_falls_back_or_faults :
    (∀ (w : Nat) (e : Env) (N v : GoString) (D D64 : Int), (w = 32 ∨ w = 64) →
        e N = some v → v ≠ [] → ¬ spec.isIntLiteral v → isInt w D →
        env.VarAsInt w e N D = Outcome.ret D
        ∧ env.VarAsInt64 e N D64 = Outcome.ret D64
        ∧ (env.MandatoryVarAsInt w e N).faults = true
        ∧ (env.MandatoryVarAsInt64 e N).faults = true)
    ∧ (∀ w : Nat, (w = 32 ∨ w = 64) →
        env.VarAsInt w os.emptyEnv (str "RETRIES") 3 = Outcome.ret 3
        ∧ env.VarAsInt w (os.Setenv os.emptyEnv (str "RETRIES") (str "7")) (str "RETRIES") 3
            = Outcome.ret 7
        ∧ env.VarAsInt w (os.Setenv os.emptyEnv (str "RETRIES") (str "abc")) (str "RETRIES") 3
            = Outcome.ret 3) := by
  constructor
  · intro w e N v D D64 hw hv hne hnl hD
    have h : os.Getenv e N = v := os.Getenv_of_set e N v hv
    rcases hp : strconv.ParseInt v 10 64 with ⟨n, err⟩
    cases err with
    | none => exact absurd (strconv.ParseInt_ok_literal v n hp) hnl
    | some er =>
      rw [← h] at hp hne
      have hm := env.MandatoryVarAsInt64_of_unparsed e N n er hne hp
      refine ⟨env.VarAsInt_of_default w hw e N D hD (env.VarAsInt64_of_unparsed e N _ n er hp),
        env.VarAsInt64_of_unparsed e N D64 n er hp, ?_, ?_⟩
      · rw [env.MandatoryVarAsInt_of_panic w e N _ hm]; rfl
      · rw [hm]; rfl
  · intro w hw
    rcases hw with rfl | rfl <;> decide

/-- Witness of C11: `RETRIES` set to "12a" on a 64-bit platform, defaults 3
and 4. -/
theorem env.non_int_falls_back_or_faults_witness :
    env.VarAsInt 64 (os.Setenv os.emptyEnv (str "RETRIES") (str "12a")) (str "RETRIES") 3
        = Outcome.ret 3
    ∧ env.VarAsInt64 (os.Setenv os.emptyEnv (str "RETRIES") (str "12a")) (str "RETRIES") 4
        = Outcome.ret 4
    ∧ (env.MandatoryVarAsInt 64 (os.Setenv os.emptyEnv (str "RETRIES") (str "12a"))
        (str "RETRIES")).faults = true
    ∧ (env.MandatoryVarAsInt64 (os.Setenv os.emptyEnv (str "RETRIES") (str "12a"))
        (str "RETRIES")).faults = true :=
  env.non_int_falls_back_or_faults.1 64 (os.Setenv os.emptyEnv (str "RETRIES") (str "12a"))
    (str "RETRIES") (str "12a") 3 4 (Or.inr rfl) (by decide) (by decide) (by decide) (by decide)

/-- C17: a decimal integer literal whose value is outside the `int64` range is
treated as unparsable: `VarAsInt64(N, D)` and `VarAsInt(N, D)` return `D`, not
the clamped value that `ParseInt` hands back with its range error, and
`MandatoryVarAsInt64(N)` and `MandatoryVarAsInt(N)` panic with the invalid-int
message. -/
theorem env.out_of_range_int_unparsable (w : Nat) (hw : w = 32 ∨ w = 64) (e : Env)
    (N sign ds : GoString) (hv : e N = some (sign ++ ds)) (hs : sign ∈ spec.signs)
    (hd : spec.isDigits ds) (hr : ¬ isInt64 (spec.literalValue sign ds))
    (D : Int) (hD : isInt w D) (D64 : Int) :
    env.VarAsInt64 e N D64 = Outcome.ret D64
    ∧ env.VarAsInt w e N D = Outcome.ret D
    ∧ env.MandatoryVarAsInt64 e N = Outcome.panic
        (fmt.Sprintf2 "Invalid int value for env var name " N " value " (sign ++ ds))
    ∧ env.MandatoryVarAsInt w e N = Outcome.panic
        (fmt.Sprintf2 "Invalid int value for env var name " N " value " (sign ++ ds)) := by
  have h : os.Getenv e N = sign ++ ds := os.Getenv_of_set e N _ hv
  have hp := strconv.ParseInt_out_of_range sign ds hs hd hr
  have hne : os.Getenv e N ≠ [] := by
    rw [h]
    intro hnil
    exact hd.1 (List.append_eq_nil.mp hnil).2
  rw [← h] at hp
  have hm := env.MandatoryVarAsInt64_of_unparsed e N _ _ hne hp
  rw [h] at hm
  exact ⟨env.VarAsInt64_of_unparsed e N D64 _ _ hp,
    env.VarAsInt_of_default w hw e N D hD (env.VarAsInt64_of_unparsed e N _ _ _ hp),
    hm, env.MandatoryVarAsInt_of_panic w e N _ hm⟩

/-- Witness of C17: `N` set to "9223372036854775808", which is 2^63, with
defaults 5 and 6 on a 64-bit platform. -/
theorem env.out_of_range_int_unparsable_witness :
    env.VarAsInt64 (os.Setenv os.emptyEnv (str "N") (str "9223372036854775808")) (str "N") 6
        = Outcome.ret 6
    ∧ env.VarAsInt 64 (os.Setenv os.emptyEnv (str "N") (str "9223372036854775808")) (str "N") 5
        = Outcome.ret 5
    ∧ env.MandatoryVarAsInt64 (os.Setenv os.emptyEnv (str "N") (str "9223372036854775808"))
        (str "N") = Outcome.panic
          (str "Invalid int value for env var name N value 9223372036854775808")
    ∧ env.MandatoryVarAsInt 64 (os.Setenv os.emptyEnv (str "N") (str "9223372036854775808"))
        (str "N") = Outcome.panic
          (str "Invalid int value for env var name N value 9223372036854775808") :=
  env.out_of_range_int_unparsable 64 (Or.inr rfl)
    (os.Setenv os.emptyEnv (str "N") (str "9223372036854775808")) (str "N") []
    (str "9223372036854775808") (by decide) (by decide) (by decide) (by decide) 5 (by decide) 6

/-! ## Splitting -/

namespace strings

theorem HasPrefix_eq_isPrefixOf (s p : GoString) : HasPrefix s p = p.isPrefixOf s := by
  induction p generalizing s with
  | nil => cases s <;> simp [HasPrefix]
  | cons b bs ih =>
    cases s with
    | nil => simp [HasPrefix]
    | cons c cs =>
      simp only [HasPrefix, List.isPrefixOf, ih cs]
      by_cases h : c = b
      · subst h; simp
      · have h2 : ¬ b = c := fun hbc => h hbc.symm
        simp [h, h2]

theorem HasPrefix_iff (s p : GoString) : HasPrefix s p = true ↔ p <+: s := by
  rw [HasPrefix_eq_isPrefixOf, List.isPrefixOf_iff_prefix]

theorem Index_nil (sep : GoString) (hsep : sep ≠ []) : Index [] sep = none := by
  simp [Index, hsep]

theorem Index_cons (c : Nat) (s sep : GoString) :
    Index (c :: s) sep
      = if sep <+: c :: s then some 0 else (Index s sep).map (· + 1) := by
  rw [Index]
  by_cases h : sep <+: c :: s
  · rw [if_pos h, if_pos ((HasPrefix_iff _ _).mpr h)]
  · rw [if_neg h, if_neg (fun h2 => h ((HasPrefix_iff _ _).mp h2))]

/-- An index returned by `Index` is the first place where `sep` starts. -/
theorem Index_some (sep : GoString) (hsep : sep ≠ []) (s : GoString) :
    ∀ m, Index s sep = some m →
      sep <+: s.drop m ∧ ∀ j, j < m → ¬ sep <+: s.drop j := by
  induction s with
  | nil => intro m h; rw [Index_nil sep hsep] at h; cases h
  | cons c cs ih =>
    intro m h
    rw [Index_cons] at h
    by_cases hp : sep <+: c :: cs
    · rw [if_pos hp] at h
      cases h
      exact ⟨by simpa using hp, fun j hj => by omega⟩
    · rw [if_neg hp] at h
      cases hi : Index cs sep with
      | none => rw [hi] at h; cases h
      | some m2 =>
        rw [hi] at h
        simp only [Option.map_some', Option.some.injEq] at h
        subst h
        obtain ⟨h1, h2⟩ := ih m2 hi
        refine ⟨by simpa using h1, ?_⟩
        intro j hj
        cases j with
        | zero => simpa using hp
        | succ j2 => simpa using h2 j2 (by omega)

/-- When `Index` finds nothing, `sep` starts nowhere in the string. -/
theorem Index_none (sep : GoString) (hsep : sep ≠ []) (s : GoString) :
    Index s sep = none → ∀ j, ¬ sep <+: s.drop j := by
  induction s with
  | nil =>
    intro _ j hp
    simp only [List.drop_nil, List.prefix_nil] at hp
    exact hsep hp
  | cons c cs ih =>
    intro h j
    rw [Index_cons] at h
    by_cases hp : sep <+: c :: cs
    · rw [if_pos hp] at h; cases h
    · rw [if_neg hp] at h
      have hi : Index cs sep = none := by
        cases hi : Index cs sep with
        | none => rfl
        | some m => rw [hi] at h; cases h
      cases j with
      | zero => simpa using hp
      | succ j2 => simpa using ih hi j2

/-- The string around the first occurrence that `Index` found. -/
theorem Index_some_split (sep : GoString) (hsep : sep ≠ []) (s : GoString) (m : Nat)
    (h : Index s sep = some m) :
    s = s.take m ++ sep ++ s.drop (m + sep.length) ∧ m + sep.length ≤ s.length := by
  obtain ⟨⟨t, ht⟩, _⟩ := Index_some sep hsep s m h
  have hlen : (s.drop m).length = sep.length + t.length := by rw [← ht]; simp
  have hm : m + sep.length ≤ s.length := by
    rw [List.length_drop] at hlen
    have : 0 < sep.length := List.length_pos.mpr hsep
    omega
  refine ⟨?_, hm⟩
  have hd : s.drop (m + sep.length) = t := by
    rw [← List.drop_drop, ← ht]
    simp
  rw [hd, List.append_assoc, ht, List.take_append_drop]

end strings

namespace strings

theorem Count_loop_acc (sep : GoString) (f : Nat) :
    ∀ (s : GoString) (n : Nat), Count.loop sep f s n = n + Count.loop sep f s 0 := by
  induction f with
  | zero => intro s n; simp [Count.loop]
  | succ f ih =>
    intro s n
    rw [Count.loop, Count.loop]
    cases Index s sep with
    | none => simp
    | some i =>
      simp only
      rw [ih _ (n + 1), ih _ (0 + 1)]
      omega

/-- One more unit of fuel than the length of the string changes nothing in the
loop of `Count`: each instance found shortens the string. -/
theorem Count_loop_step (sep : GoString) (hsep : sep ≠ []) (f : Nat) :
    ∀ (s : GoString) (n : Nat), s.length ≤ f →
      Count.loop sep (f + 1) s n = Count.loop sep f s n := by
  induction f with
  | zero =>
    intro s n hs
    have : s = [] := List.length_eq_zero.mp (by omega)
    subst this
    simp [Count.loop, Index_nil sep hsep]
  | succ f ih =>
    intro s n hs
    rw [Count.loop, Count.loop]
    cases hi : Index s sep with
    | none => rfl
    | some i =>
      obtain ⟨_, hle⟩ := Index_some_split sep hsep s i hi
      have hpos : 0 < sep.length := List.length_pos.mpr hsep
      have hd : (s.drop (i + sep.length)).length ≤ f := by
        rw [List.length_drop]; omega
      simp only
      rw [ih _ _ hd]

theorem Count_loop_fuel (sep : GoString) (hsep : sep ≠ []) (s : GoString) (n d : Nat) :
    Count.loop sep (s.length + d) s n = Count.loop sep s.length s n := by
  induction d with
  | zero => rfl
  | succ d ih =>
    rw [← Nat.add_assoc, Count_loop_step sep hsep (s.length + d) s n (by omega), ih]

theorem Count_of_none (sep : GoString) (s : GoString) (hi : Index s sep = none) :
    Count s sep = 0 := by
  unfold Count
  cases hl : s.length with
  | zero => simp [Count.loop]
  | succ k => simp [Count.loop, hi]

/-- The number that `Count` returns, one instance at a time. -/
theorem Count_of_some (sep : GoString) (hsep : sep ≠ []) (s : GoString) (m : Nat)
    (hi : Index s sep = some m) :
    Count s sep = Count (s.drop (m + sep.length)) sep + 1 := by
  obtain ⟨_, hle⟩ := Index_some_split sep hsep s m hi
  have hpos : 0 < sep.length := List.length_pos.mpr hsep
  unfold Count
  cases hl : s.length with
  | zero => omega
  | succ k =>
    have hd : ∃ d, k = (s.drop (m + sep.length)).length + d :=
      ⟨k - (s.drop (m + sep.length)).length, by rw [List.length_drop]; omega⟩
    obtain ⟨d, hd⟩ := hd
    rw [Count.loop]
    simp only [hi]
    rw [hd, Count_loop_fuel sep hsep, Count_loop_acc]
    omega

theorem Count_le_length (sep : GoString) (hsep : sep ≠ []) :
    ∀ (k : Nat) (s : GoString), s.length ≤ k → Count s sep ≤ s.length := by
  intro k
  induction k with
  | zero =>
    intro s hs
    have : s = [] := List.length_eq_zero.mp (by omega)
    subst this
    rw [Count_of_none sep [] (Index_nil sep hsep)]
    exact Nat.zero_le _
  | succ k ih =>
    intro s hs
    cases hi : Index s sep with
    | none => rw [Count_of_none sep s hi]; exact Nat.zero_le _
    | some i =>
      obtain ⟨_, hle⟩ := Index_some_split sep hsep s i hi
      have hpos : 0 < sep.length := List.length_pos.mpr hsep
      have hd : (s.drop (i + sep.length)).length ≤ k := by
        rw [List.length_drop]; omega
      have := ih _ hd
      rw [List.length_drop] at this
      rw [Count_of_some sep hsep s i hi]
      omega

theorem genSplit_loop_of_none (sep : GoString) (k : Nat) (s : GoString)
    (hi : Index s sep = none) : genSplit.loop sep k s = [s] := by
  cases k with
  | zero => rfl
  | succ k => rw [genSplit.loop]; simp only [hi]

theorem genSplit_loop_of_some (sep : GoString) (k : Nat) (s : GoString) (m : Nat)
    (hi : Index s sep = some m) :
    genSplit.loop sep (k + 1) s
      = s.take m :: genSplit.loop sep k (s.drop (m + sep.length)) := by
  rw [genSplit.loop]
  simp only [hi]

/-- Once the number of cuts allowed reaches `Count`, allowing more changes
nothing. -/
theorem genSplit_loop_fuel (sep : GoString) (hsep : sep ≠ []) (k : Nat) :
    ∀ s : GoString, Count s sep ≤ k →
      genSplit.loop sep k s = genSplit.loop sep (Count s sep) s := by
  induction k with
  | zero =>
    intro s hs
    have : Count s sep = 0 := by omega
    rw [this]
  | succ k ih =>
    intro s hs
    cases hi : Index s sep with
    | none => rw [genSplit_loop_of_none sep _ s hi, genSplit_loop_of_none sep _ s hi]
    | some i =>
      rw [Count_of_some sep hsep s i hi] at hs ⊢
      rw [genSplit_loop_of_some sep _ s i hi, genSplit_loop_of_some sep _ s i hi,
        ih _ (by omega)]

theorem Split_eq_loop (sep : GoString) (hsep : sep ≠ []) (s : GoString) :
    Split s sep = genSplit.loop sep (Count s sep) s := by
  unfold Split
  have hle := Count_le_length sep hsep s.length s (Nat.le_refl _)
  have hmin : min (Count s sep + 1) (s.length + 1) - 1 = Count s sep := by omega
  simp only [hmin]

/-- The split of a string in which the separator does not occur is the string
itself. -/
theorem Split_of_none (sep : GoString) (hsep : sep ≠ []) (s : GoString)
    (hi : Index s sep = none) : Split s sep = [s] := by
  rw [Split_eq_loop sep hsep, genSplit_loop_of_none sep _ s hi]

/-- The split of a string in which the separator occurs is what precedes the
first occurrence, followed by the split of what follows it. -/
theorem Split_of_some (sep : GoString) (hsep : sep ≠ []) (s : GoString) (m : Nat)
    (hi : Index s sep = some m) :
    Split s sep = s.take m :: Split (s.drop (m + sep.length)) sep := by
  rw [Split_eq_loop sep hsep, Count_of_some sep hsep s m hi,
    genSplit_loop_of_some sep _ s m hi, Split_eq_loop sep hsep]

theorem genSplit_loop_ne_nil (sep : GoString) (k : Nat) (s : GoString) :
    genSplit.loop sep k s ≠ [] := by
  cases k with
  | zero => simp [genSplit.loop]
  | succ k =>
    cases hi : Index s sep with
    | none => rw [genSplit_loop_of_none sep _ s hi]; simp
    | some m => rw [genSplit_loop_of_some sep _ s m hi]; simp

theorem Split_ne_nil (s sep : GoString) : Split s sep ≠ [] :=
  genSplit_loop_ne_nil sep _ s

end strings

namespace strings

/-- Induction along the cuts of `Split`. -/
theorem Split_induction (sep : GoString) (hsep : sep ≠ []) (P : GoString → Prop)
    (hnone : ∀ s, Index s sep = none → P s)
    (hsome : ∀ s m, Index s sep = some m → P (s.drop (m + sep.length)) → P s) :
    ∀ s, P s := by
  have key : ∀ (k : Nat) (s : GoString), s.length ≤ k → P s := by
    intro k
    induction k with
    | zero =>
      intro s hs
      have : s = [] := List.length_eq_zero.mp (by omega)
      subst this
      exact hnone [] (Index_nil sep hsep)
    | succ k ih =>
      intro s hs
      cases hi : Index s sep with
      | none => exact hnone s hi
      | some m =>
        obtain ⟨_, hle⟩ := Index_some_split sep hsep s m hi
        have hpos : 0 < sep.length := List.length_pos.mpr hsep
        exact hsome s m hi (ih _ (by rw [List.length_drop]; omega))
  intro s
  exact key s.length s (Nat.le_refl _)

theorem Join_cons (a : GoString) (l : List GoString) (sep : GoString) (hl : l ≠ []) :
    Join (a :: l) sep = a ++ sep ++ Join l sep := by
  cases l with
  | nil => exact absurd rfl hl
  | cons b rest => rfl

/-- Joining what `Split` returned gives the string back. -/
theorem Join_Split (sep : GoString) (hsep : sep ≠ []) :
    ∀ s : GoString, Join (Split s sep) sep = s := by
  apply Split_induction sep hsep
  · intro s hi
    rw [Split_of_none sep hsep s hi]
    rfl
  · intro s m hi ih
    rw [Split_of_some sep hsep s m hi, Join_cons _ _ _ (Split_ne_nil _ _), ih]
    exact (Index_some_split sep hsep s m hi).1.symm

theorem infix_iff_prefix_drop (sep p : GoString) :
    sep <:+: p ↔ ∃ j, j + sep.length ≤ p.length ∧ sep <+: p.drop j := by
  constructor
  · rintro ⟨a, b, h⟩
    refine ⟨a.length, ?_, ?_⟩
    · rw [← h]; simp
    · rw [← h]
      simp
  · rintro ⟨j, _, t, ht⟩
    refine ⟨p.take j, t, ?_⟩
    rw [List.append_assoc, ht, List.take_append_drop]

/-- The separator does not occur in what precedes its first occurrence. -/
theorem not_infix_take_Index (sep : GoString) (hsep : sep ≠ []) (s : GoString) (m : Nat)
    (hi : Index s sep = some m) : ¬ sep <:+: s.take m := by
  intro hin
  obtain ⟨j, hj, hp⟩ := (infix_iff_prefix_drop sep _).mp hin
  have hpos : 0 < sep.length := List.length_pos.mpr hsep
  have hlen : (s.take m).length ≤ m := by rw [List.length_take]; omega
  have hjm : j < m := by omega
  apply (Index_some sep hsep s m hi).2 j hjm
  rw [List.drop_take] at hp
  exact hp.trans (List.take_prefix _ _)

theorem not_infix_of_Index_none (sep : GoString) (hsep : sep ≠ []) (s : GoString)
    (hi : Index s sep = none) : ¬ sep <:+: s := by
  intro hin
  obtain ⟨j, _, hp⟩ := (infix_iff_prefix_drop sep _).mp hin
  exact Index_none sep hsep s hi j hp

/-- The separator occurs in no piece that `Split` returns. -/
theorem not_infix_of_mem_Split (sep : GoString) (hsep : sep ≠ []) :
    ∀ s : GoString, ∀ p ∈ Split s sep, ¬ sep <:+: p := by
  apply Split_induction sep hsep
  · intro s hi p hp
    rw [Split_of_none sep hsep s hi, List.mem_singleton] at hp
    subst hp
    exact not_infix_of_Index_none sep hsep _ hi
  · intro s m hi ih p hp
    rw [Split_of_some sep hsep s m hi] at hp
    rcases List.mem_cons.mp hp with rfl | hp2
    · exact not_infix_take_Index sep hsep s m hi
    · exact ih p hp2

/-- `Split` returns one piece more than `Count` counts instances. -/
theorem length_Split (sep : GoString) (hsep : sep ≠ []) :
    ∀ s : GoString, (Split s sep).length = Count s sep + 1 := by
  apply Split_induction sep hsep
  · intro s hi
    rw [Split_of_none sep hsep s hi, Count_of_none sep s hi]
    rfl
  · intro s m hi ih
    rw [Split_of_some sep hsep s m hi, Count_of_some sep hsep s m hi, List.length_cons, ih]

end strings

/-- The bytes of `string(r)` are never empty, and the first of them does not
occur again among the others: two copies of the separator never overlap. -/
theorem runeToString_head (r : Int) :
    ∃ (b : Nat) (bs : GoString), runeToString r = b :: bs ∧ b ∉ bs := by
  unfold runeToString
  split
  · exact ⟨0xEF, [0xBF, 0xBD], by decide, by decide⟩
  · rename_i h
    have h0 : 0 ≤ r := by omega
    have h1 : r.toNat ≤ 0x10FFFF := by omega
    generalize r.toNat = n at h1
    unfold utf8.encodeValid
    split
    · exact ⟨n, [], rfl, by simp⟩
    · split
      · refine ⟨_, _, rfl, ?_⟩
        simp only [List.mem_singleton]
        omega
      · split
        · refine ⟨_, _, rfl, ?_⟩
          simp only [List.mem_cons, List.mem_singleton, List.not_mem_nil, or_false]
          omega
        · refine ⟨_, _, rfl, ?_⟩
          simp only [List.mem_cons, List.mem_singleton, List.not_mem_nil, or_false]
          omega

theorem runeToString_ne_nil (r : Int) : runeToString r ≠ [] := by
  obtain ⟨b, bs, h, _⟩ := runeToString_head r
  rw [h]
  simp

namespace spec

theorem occurrences_nil (sep : GoString) (hsep : sep ≠ []) : occurrences sep [] = 0 := by
  cases sep with
  | nil => exact absurd rfl hsep
  | cons b bs => simp [occurrences, List.isPrefixOf]

theorem occurrences_cons (sep : GoString) (c : Nat) (s : GoString) :
    occurrences sep (c :: s) = (if sep <+: c :: s then 1 else 0) + occurrences sep s := by
  unfold occurrences
  rw [List.tails, List.filter_cons]
  by_cases h : sep <+: c :: s
  · rw [if_pos h, if_pos (List.isPrefixOf_iff_prefix.mpr h), List.length_cons]
    omega
  · rw [if_neg h, if_neg (fun h2 => h (List.isPrefixOf_iff_prefix.mp h2))]
    omega

/-- No occurrence starts before the first one. -/
theorem occurrences_drop_Index (sep : GoString) (hsep : sep ≠ []) (s : GoString) :
    ∀ m, strings.Index s sep = some m → occurrences sep s = occurrences sep (s.drop m) := by
  induction s with
  | nil => intro m h; rw [strings.Index_nil sep hsep] at h; cases h
  | cons c cs ih =>
    intro m h
    rw [strings.Index_cons] at h
    by_cases hp : sep <+: c :: cs
    · rw [if_pos hp] at h
      cases h
      rfl
    · rw [if_neg hp] at h
      cases hi : strings.Index cs sep with
      | none => rw [hi] at h; cases h
      | some m2 =>
        rw [hi] at h
        simp only [Option.map_some', Option.some.injEq] at h
        subst h
        rw [occurrences_cons, if_neg hp, ih m2 hi]
        simp

/-- No occurrence starts on bytes that differ from the first byte of the
separator. -/
theorem occurrences_append_of_not_mem (b : Nat) (bs u rest : GoString) (hu : b ∉ u) :
    occurrences (b :: bs) (u ++ rest) = occurrences (b :: bs) rest := by
  induction u with
  | nil => rfl
  | cons x xs ih =>
    have hx : ¬ (b :: bs) <+: x :: (xs ++ rest) := by
      intro hp
      have := List.cons_prefix_cons.mp hp
      exact hu (by rw [this.1]; exact List.mem_cons_self _ _)
    rw [List.cons_append, occurrences_cons, if_neg hx, ih (fun h => hu (List.mem_cons_of_mem _ h))]
    simp

/-- For a separator whose first byte does not occur again in it, `Count`
counts all the occurrences. -/
theorem Count_eq_occurrences (b : Nat) (bs : GoString) (hb : b ∉ bs) :
    ∀ s : GoString, strings.Count s (b :: bs) = occurrences (b :: bs) s := by
  have hsep : b :: bs ≠ [] := by simp
  apply strings.Split_induction (b :: bs) hsep
  · intro s hi
    rw [strings.Count_of_none _ s hi]
    have hnone := strings.Index_none _ hsep s hi
    have key : ∀ t : GoString, (∀ j, ¬ (b :: bs) <+: t.drop j) → occurrences (b :: bs) t = 0 := by
      intro t
      induction t with
      | nil => intro _; exact occurrences_nil _ hsep
      | cons c cs ih =>
        intro h
        rw [occurrences_cons, if_neg (by simpa using h 0), ih (fun j => by simpa using h (j + 1))]
    exact (key s hnone).symm
  · intro s m hi ih
    rw [strings.Count_of_some _ hsep s m hi, ih, occurrences_drop_Index _ hsep s m hi]
    obtain ⟨⟨t, ht⟩, _⟩ := strings.Index_some _ hsep s m hi
    have hd : s.drop (m + (b :: bs).length) = t := by
      rw [← List.drop_drop, ← ht]
      simp
    rw [hd, ← ht, List.cons_append, occurrences_cons, if_pos ⟨t, rfl⟩,
      occurrences_append_of_not_mem b bs bs t hb]
    omega

end spec

namespace spec

theorem piecesFrom_nil (sep : GoString) (k : Nat) (cur : GoString) :
    piecesFrom sep [] k cur = [cur.reverse] := by
  cases k <;> rfl

theorem piecesFrom_skip (sep : GoString) (c : Nat) (s : GoString) (k : Nat) (cur : GoString) :
    piecesFrom sep (c :: s) (k + 1) cur = piecesFrom sep s k cur := rfl

theorem piecesFrom_zero (sep : GoString) (c : Nat) (s cur : GoString) :
    piecesFrom sep (c :: s) 0 cur
      = if sep <+: c :: s then cur.reverse :: piecesFrom sep s (sep.length - 1) []
        else piecesFrom sep s 0 (c :: cur) := by
  rw [piecesFrom]
  by_cases h : sep <+: c :: s
  · rw [if_pos h, if_pos (List.isPrefixOf_iff_prefix.mpr h)]
  · rw [if_neg h, if_neg (fun h2 => h (List.isPrefixOf_iff_prefix.mp h2))]

/-- Passing over `k` bytes is dropping them. -/
theorem piecesFrom_drop (sep : GoString) (s : GoString) :
    ∀ (k : Nat) (cur : GoString), k ≤ s.length →
      piecesFrom sep s k cur = piecesFrom sep (s.drop k) 0 cur := by
  induction s with
  | nil =>
    intro k cur hk
    have : k = 0 := by simpa using hk
    subst this
    rfl
  | cons c cs ih =>
    intro k cur hk
    cases k with
    | zero => rfl
    | succ k =>
      rw [piecesFrom_skip, List.drop_succ_cons]
      exact ih k cur (by simpa using hk)

theorem piecesFrom_of_none (sep : GoString) (s : GoString) :
    ∀ cur : GoString, strings.Index s sep = none →
      piecesFrom sep s 0 cur = [cur.reverse ++ s] := by
  induction s with
  | nil => intro cur _; simp [piecesFrom_nil]
  | cons c cs ih =>
    intro cur h
    rw [strings.Index_cons] at h
    by_cases hp : sep <+: c :: cs
    · rw [if_pos hp] at h; cases h
    · rw [if_neg hp] at h
      have hi : strings.Index cs sep = none := by
        cases hi : strings.Index cs sep with
        | none => rfl
        | some m => rw [hi] at h; cases h
      rw [piecesFrom_zero, if_neg hp, ih _ hi]
      simp

theorem piecesFrom_of_some (sep : GoString) (hsep : sep ≠ []) (s : GoString) :
    ∀ (m : Nat) (cur : GoString), strings.Index s sep = some m →
      piecesFrom sep s 0 cur
        = (cur.reverse ++ s.take m) :: piecesFrom sep (s.drop (m + sep.length)) 0 [] := by
  induction s with
  | nil => intro m cur h; rw [strings.Index_nil sep hsep] at h; cases h
  | cons c cs ih =>
    intro m cur h
    have hsplit := strings.Index_some_split sep hsep (c :: cs) m h
    rw [strings.Index_cons] at h
    by_cases hp : sep <+: c :: cs
    · rw [if_pos hp] at h
      cases h
      have hpos : 0 < sep.length := List.length_pos.mpr hsep
      have hlen : sep.length - 1 ≤ cs.length := by
        have := hsplit.2
        simp only [List.length_cons] at this
        omega
      rw [piecesFrom_zero, if_pos hp, piecesFrom_drop sep cs _ _ hlen]
      have hd : (c :: cs).drop (0 + sep.length) = cs.drop (sep.length - 1) := by
        obtain ⟨k, hk⟩ : ∃ k, sep.length = k + 1 := ⟨sep.length - 1, by omega⟩
        rw [hk]
        simp
      rw [hd]
      simp
    · rw [if_neg hp] at h
      cases hi : strings.Index cs sep with
      | none => rw [hi] at h; cases h
      | some m2 =>
        rw [hi] at h
        simp only [Option.map_some', Option.some.injEq] at h
        subst h
        rw [piecesFrom_zero, if_neg hp, ih m2 _ hi]
        have hd : (c :: cs).drop (m2 + 1 + sep.length) = cs.drop (m2 + sep.length) := by
          rw [show m2 + 1 + sep.length = (m2 + sep.length) + 1 by omega]
          rfl
        rw [hd]
        simp

end spec

/-- What `Split` returns is the list of the pieces between successive
occurrences of the separator. -/
theorem strings.Split_eq_pieces (sep : GoString) (hsep : sep ≠ []) :
    ∀ s : GoString, strings.Split s sep = spec.pieces sep s := by
  apply strings.Split_induction sep hsep
  · intro s hi
    rw [strings.Split_of_none sep hsep s hi, spec.pieces, spec.piecesFrom_of_none sep s [] hi]
    rfl
  · intro s m hi ih
    rw [strings.Split_of_some sep hsep s m hi, spec.pieces,
      spec.piecesFrom_of_some sep hsep s m [] hi, ih]
    rfl

/-- What `ParseInt` accepts in base 10 and 64 bits is an integer literal whose
value is in the `int64` range. -/
theorem strconv.ParseInt_ok_int64Literal (v : GoString) (n : Int)
    (h : strconv.ParseInt v 10 64 = (n, none)) : spec.isInt64Literal v := by
  obtain ⟨sign, hs, ds, hmem, hd, hv⟩ := strconv.ParseInt_ok_literal v n h
  by_cases hr : isInt64 (spec.literalValue sign ds)
  · exact ⟨sign, hs, ds, hmem, hd, hv, hr⟩
  · have hp := strconv.ParseInt_out_of_range sign ds hs hd hr
    rw [← hv, h] at hp
    cases hp

namespace env

theorem VarAsStringSlice_of_ne_nil (e : Env) (N : GoString) (D : List GoString) (c : Int)
    (hne : os.Getenv e N ≠ []) :
    VarAsStringSlice e N D c
      = Outcome.ret (strings.Split (os.Getenv e N) (runeToString c)) := by
  unfold VarAsStringSlice
  have hpos : (strings.Split (os.Getenv e N) (runeToString c)).length > 0 :=
    List.length_pos.mpr (strings.Split_ne_nil _ _)
  simp [hne, hpos]

theorem MandatoryVarAsStringSlice_of_ne_nil (e : Env) (N : GoString) (c : Int)
    (hne : os.Getenv e N ≠ []) :
    MandatoryVarAsStringSlice e N c
      = Outcome.ret (strings.Split (os.Getenv e N) (runeToString c)) := by
  unfold MandatoryVarAsStringSlice
  simp [MandatoryVar_of_ne_nil e N hne, strings.Split_ne_nil]

theorem MandatoryVarAsStringSlice_of_nil (e : Env) (N : GoString) (c : Int)
    (h : os.Getenv e N = []) :
    MandatoryVarAsStringSlice e N c
      = Outcome.panic (fmt.Sprintf1 "Missing mandatory env var name " N) := by
  unfold MandatoryVarAsStringSlice
  simp [MandatoryVar_of_nil e N h]

theorem MandatoryVarAsBool_of_nil (e : Env) (N : GoString) (h : os.Getenv e N = []) :
    MandatoryVarAsBool e N
      = Outcome.panic (fmt.Sprintf1 "Missing mandatory env var name " N) := by
  unfold MandatoryVarAsBool
  simp [MandatoryVar_of_nil e N h]

end env

/-- C12: when `N` is set to a non-empty string `v`, `VarAsStringSlice(N, D, c)`
and `MandatoryVarAsStringSlice(N, c)` both return the ordered list of the
pieces of `v` between successive occurrences of `c`, empty pieces included,
whatever the default list `D`. Scenario: "a,b,c" with `,` gives
["a","b","c"], and "a,,b" gives ["a","","b"]. -/
theorem env.slice_returns_pieces :
    (∀ (e : Env) (N v : GoString) (D : List GoString) (c : Int), e N = some v → v ≠ [] →
        env.VarAsStringSlice e N D c = Outcome.ret (spec.pieces (runeToString c) v)
        ∧ env.MandatoryVarAsStringSlice e N c = Outcome.ret (spec.pieces (runeToString c) v))
    ∧ (∀ D : List GoString,
        env.VarAsStringSlice (os.Setenv os.emptyEnv (str "N") (str "a,b,c")) (str "N") D 44
          = Outcome.ret [str "a", str "b", str "c"]
        ∧ env.VarAsStringSlice (os.Setenv os.emptyEnv (str "N") (str "a,,b")) (str "N") D 44
          = Outcome.ret [str "a", str "", str "b"])
    ∧ env.MandatoryVarAsStringSlice (os.Setenv os.emptyEnv (str "N") (str "a,b,c")) (str "N") 44
        = Outcome.ret [str "a", str "b", str "c"]
    ∧ env.MandatoryVarAsStringSlice (os.Setenv os.emptyEnv (str "N") (str "a,,b")) (str "N") 44
        = Outcome.ret [str "a", str "", str "b"] := by
  refine ⟨?_, ?_, by decide, by decide⟩
  · intro e N v D c hv hne
    have h : os.Getenv e N = v := os.Getenv_of_set e N v hv
    have hne2 : os.Getenv e N ≠ [] := by rw [h]; exact hne
    rw [env.VarAsStringSlice_of_ne_nil e N D c hne2,
      env.MandatoryVarAsStringSlice_of_ne_nil e N c hne2, h,
      strings.Split_eq_pieces _ (runeToString_ne_nil c)]
    exact ⟨rfl, rfl⟩
  · intro D
    constructor
    · rw [env.VarAsStringSlice_of_ne_nil _ _ D 44 (by decide)]
      decide
    · rw [env.VarAsStringSlice_of_ne_nil _ _ D 44 (by decide)]
      decide

/-- Witness of C12: `N` set to "a€b€€" split on the euro sign, a rune of three
bytes, with default ["x"]. -/
theorem env.slice_returns_pieces_witness :
    env.VarAsStringSlice (os.Setenv os.emptyEnv (str "N") (str "a€b€€")) (str "N") [str "x"]
        0x20AC = Outcome.ret [str "a", str "b", str "", str ""]
    ∧ env.MandatoryVarAsStringSlice (os.Setenv os.emptyEnv (str "N") (str "a€b€€")) (str "N")
        0x20AC = Outcome.ret [str "a", str "b", str "", str ""] :=
  env.slice_returns_pieces.1 (os.Setenv os.emptyEnv (str "N") (str "a€b€€")) (str "N")
    (str "a€b€€") [str "x"] 0x20AC (by decide) (by decide)

/-- C16: the invalid-slice panic is unreachable. For every rune `c`, zero and
invalid code points included, `string(c)` is not empty and splitting on it
yields at least one element; so `MandatoryVarAsStringSlice(N, c)` panics
exactly when `MandatoryVar(N)` does, that is when `N` is unset or empty, and
`VarAsStringSlice` returns the split, not the default, whenever `N` is set to a
non-empty string. -/
theorem env.invalid_slice_unreachable (e : Env) (N : GoString) (c : Int) :
    (∀ v : GoString, runeToString c ≠ [] ∧ 1 ≤ (strings.Split v (runeToString c)).length)
    ∧ ((env.MandatoryVarAsStringSlice e N c).faults = true
        ↔ (env.MandatoryVar e N).faults = true)
    ∧ ((env.MandatoryVarAsStringSlice e N c).faults = true ↔ (e N = none ∨ e N = some []))
    ∧ (∀ (v : GoString) (D : List GoString), e N = some v → v ≠ [] →
        env.VarAsStringSlice e N D c = Outcome.ret (strings.Split v (runeToString c))) := by
  refine ⟨fun v => ⟨runeToString_ne_nil c, List.length_pos.mpr (strings.Split_ne_nil _ _)⟩,
    ?_, ?_, ?_⟩
  · by_cases h : os.Getenv e N = []
    · simp [env.MandatoryVarAsStringSlice_of_nil e N c h, env.MandatoryVar_of_nil e N h]
    · simp [env.MandatoryVarAsStringSlice_of_ne_nil e N c h, env.MandatoryVar_of_ne_nil e N h]
  · by_cases h : os.Getenv e N = []
    · simp [env.MandatoryVarAsStringSlice_of_nil e N c h, (os.Getenv_eq_nil_iff e N).mp h]
    · have h2 := (os.Getenv_eq_nil_iff e N).not.mp h
      rw [env.MandatoryVarAsStringSlice_of_ne_nil e N c h]
      simpa using h2
  · intro v D hv hne
    have h : os.Getenv e N = v := os.Getenv_of_set e N v hv
    rw [env.VarAsStringSlice_of_ne_nil e N D c (by rw [h]; exact hne), h]

/-- Witness of C16: `N` set to "ab" and split on the invalid rune -1, with
default ["x"]. -/
theorem env.invalid_slice_unreachable_witness :
    env.VarAsStringSlice (os.Setenv os.emptyEnv (str "N") (str "ab")) (str "N") [str "x"] (-1)
      = Outcome.ret [str "ab"] :=
  (env.invalid_slice_unreachable (os.Setenv os.emptyEnv (str "N") (str "ab")) (str "N")
    (-1)).2.2.2 (str "ab") [str "x"] (by decide) (by decide)

/-- C18: split and join round trip. When `N` is set to a non-empty string `v`,
joining the list that `VarAsStringSlice(N, D, c)` returns, and the list that
`MandatoryVarAsStringSlice(N, c)` returns, with `string(c)` between consecutive
elements gives `v` back. -/
theorem env.slice_join_round_trip (e : Env) (N v : GoString) (D : List GoString) (c : Int)
    (hv : e N = some v) (hne : v ≠ []) :
    (∃ l, env.VarAsStringSlice e N D c = Outcome.ret l
        ∧ strings.Join l (runeToString c) = v)
    ∧ (∃ l, env.MandatoryVarAsStringSlice e N c = Outcome.ret l
        ∧ strings.Join l (runeToString c) = v) := by
  have h : os.Getenv e N = v := os.Getenv_of_set e N v hv
  have hne2 : os.Getenv e N ≠ [] := by rw [h]; exact hne
  have hj := strings.Join_Split (runeToString c) (runeToString_ne_nil c) v
  rw [← h] at hj
  nth_rewrite 2 [h] at hj
  exact ⟨⟨_, env.VarAsStringSlice_of_ne_nil e N D c hne2, hj⟩,
    ⟨_, env.MandatoryVarAsStringSlice_of_ne_nil e N c hne2, hj⟩⟩

/-- Witness of C18: `N` set to ",a,,b," with delimiter `,`. -/
theorem env.slice_join_round_trip_witness :
    (∃ l, env.VarAsStringSlice (os.Setenv os.emptyEnv (str "N") (str ",a,,b,")) (str "N")
          [] 44 = Outcome.ret l
        ∧ strings.Join l (runeToString 44) = str ",a,,b,")
    ∧ (∃ l, env.MandatoryVarAsStringSlice (os.Setenv os.emptyEnv (str "N") (str ",a,,b,"))
          (str "N") 44 = Outcome.ret l
        ∧ strings.Join l (runeToString 44) = str ",a,,b,") :=
  env.slice_join_round_trip (os.Setenv os.emptyEnv (str "N") (str ",a,,b,")) (str "N")
    (str ",a,,b,") [] 44 (by decide) (by decide)

/-- C19: when `N` is set to a non-empty string `v`, no element of the list that
`VarAsStringSlice(N, D, c)` returns contains `string(c)`, and the list has one
element more than there are occurrences of `string(c)` in `v`. -/
theorem env.slice_pieces_free_of_delimiter (e : Env) (N v : GoString) (D : List GoString)
    (c : Int) (hv : e N = some v) (hne : v ≠ []) :
    ∃ l, env.VarAsStringSlice e N D c = Outcome.ret l
      ∧ (∀ p ∈ l, ¬ runeToString c <:+: p)
      ∧ l.length = spec.occurrences (runeToString c) v + 1 := by
  have h : os.Getenv e N = v := os.Getenv_of_set e N v hv
  have hne2 : os.Getenv e N ≠ [] := by rw [h]; exact hne
  have hsep := runeToString_ne_nil c
  refine ⟨_, env.VarAsStringSlice_of_ne_nil e N D c hne2, ?_, ?_⟩
  · rw [h]
    exact strings.not_infix_of_mem_Split _ hsep v
  · obtain ⟨b, bs, hb, hnb⟩ := runeToString_head c
    rw [h, strings.length_Split _ hsep v, hb, spec.Count_eq_occurrences b bs hnb v]

/-- Witness of C19: `N` set to "a,,b" with delimiter `,`. -/
theorem env.slice_pieces_free_of_delimiter_witness :
    ∃ l, env.VarAsStringSlice (os.Setenv os.emptyEnv (str "N") (str "a,,b")) (str "N") [] 44
        = Outcome.ret l
      ∧ (∀ p ∈ l, ¬ runeToString 44 <:+: p)
      ∧ l.length = spec.occurrences (runeToString 44) (str "a,,b") + 1 :=
  env.slice_pieces_free_of_delimiter (os.Setenv os.emptyEnv (str "N") (str "a,,b")) (str "N")
    (str "a,,b") [] 44 (by decide) (by decide)

/-! ## Mandatory against Optional -/

namespace env

/-- The two ways `MandatoryVar` and `Var` go together: `MandatoryVar` returns
a value that `Var` returns too for every default, or it panics and `Var`
returns its default. -/
theorem agree_MandatoryVar (e : Env) (N : GoString) :
    (∃ x, MandatoryVar e N = Outcome.ret x ∧ ∀ D, Var e N D = Outcome.ret x)
    ∨ (∃ m, MandatoryVar e N = Outcome.panic m ∧ ∀ D, Var e N D = Outcome.ret D) := by
  by_cases h : os.Getenv e N = []
  · exact Or.inr ⟨_, MandatoryVar_of_nil e N h, fun D => by
      simp [Var, getVar_of_nil e N D false h]⟩
  · exact Or.inl ⟨_, MandatoryVar_of_ne_nil e N h, fun D => getVar_of_ne_nil e N D false h⟩

theorem agree_MandatoryVarAsBool (e : Env) (N : GoString) :
    (∃ x, MandatoryVarAsBool e N = Outcome.ret x ∧ ∀ D, VarAsBool e N D = Outcome.ret x)
    ∨ (∃ m, MandatoryVarAsBool e N = Outcome.panic m
        ∧ ∀ D, VarAsBool e N D = Outcome.ret D) := by
  by_cases h : os.Getenv e N = []
  · exact Or.inr ⟨_, MandatoryVarAsBool_of_nil e N h, fun D => VarAsBool_of_nil e N D h⟩
  · rcases hp : strconv.ParseBool (os.Getenv e N) with ⟨b, err⟩
    cases err with
    | none =>
      exact Or.inl ⟨b, MandatoryVarAsBool_of_parsed e N b h hp,
        fun D => VarAsBool_of_parsed e N D b h hp⟩
    | some er =>
      exact Or.inr ⟨_, MandatoryVarAsBool_of_unparsed e N b er h hp,
        fun D => VarAsBool_of_unparsed e N D b er hp⟩

theorem agree_MandatoryVarAsInt64 (e : Env) (N : GoString) :
    (∃ x, MandatoryVarAsInt64 e N = Outcome.ret x ∧ ∀ D, VarAsInt64 e N D = Outcome.ret x)
    ∨ (∃ m, MandatoryVarAsInt64 e N = Outcome.panic m
        ∧ ∀ D, VarAsInt64 e N D = Outcome.ret D) := by
  by_cases h : os.Getenv e N = []
  · exact Or.inr ⟨_, MandatoryVarAsInt64_of_nil e N h, fun D => VarAsInt64_of_nil e N D h⟩
  · rcases hp : strconv.ParseInt (os.Getenv e N) 10 64 with ⟨n, err⟩
    cases err with
    | none =>
      exact Or.inl ⟨n, MandatoryVarAsInt64_of_parsed e N n h hp,
        fun D => VarAsInt64_of_parsed e N D n h hp⟩
    | some er =>
      exact Or.inr ⟨_, MandatoryVarAsInt64_of_unparsed e N n er h hp,
        fun D => VarAsInt64_of_unparsed e N D n er hp⟩

theorem agree_MandatoryVarAsInt (w : Nat) (hw : w = 32 ∨ w = 64) (e : Env) (N : GoString) :
    (∃ x, MandatoryVarAsInt w e N = Outcome.ret x ∧ ∀ D, VarAsInt w e N D = Outcome.ret x)
    ∨ (∃ m, MandatoryVarAsInt w e N = Outcome.panic m
        ∧ ∀ D, isInt w D → VarAsInt w e N D = Outcome.ret D) := by
  rcases agree_MandatoryVarAsInt64 e N with ⟨x, hx, ho⟩ | ⟨m, hm, ho⟩
  · refine Or.inl ⟨toInt w x, MandatoryVarAsInt_of_ret w e N x hx, fun D => ?_⟩
    unfold VarAsInt
    rw [ho]
    simp
  · exact Or.inr ⟨m, MandatoryVarAsInt_of_panic w e N m hm,
      fun D hD => VarAsInt_of_default w hw e N D hD (ho _)⟩

theorem agree_MandatoryVarAsStringSlice (e : Env) (N : GoString) (c : Int) :
    (∃ x, MandatoryVarAsStringSlice e N c = Outcome.ret x
        ∧ ∀ D, VarAsStringSlice e N D c = Outcome.ret x)
    ∨ (∃ m, MandatoryVarAsStringSlice e N c = Outcome.panic m
        ∧ ∀ D, VarAsStringSlice e N D c = Outcome.ret D) := by
  by_cases h : os.Getenv e N = []
  · exact Or.inr ⟨_, MandatoryVarAsStringSlice_of_nil e N c h,
      fun D => VarAsStringSlice_of_nil e N D c h⟩
  · exact Or.inl ⟨_, MandatoryVarAsStringSlice_of_ne_nil e N c h,
      fun D => VarAsStringSlice_of_ne_nil e N D c h⟩

end env

/-- From the two ways a Mandatory and an Optional accessor go together: what
the claim of agreement says about them. -/
theorem Outcome.agree_of_cases {α : Type} (mand : Outcome α) (opt : α → Outcome α)
    (P : α → Prop)
    (h : (∃ x, mand = Outcome.ret x ∧ ∀ D, opt D = Outcome.ret x)
      ∨ (∃ m, mand = Outcome.panic m ∧ ∀ D, P D → opt D = Outcome.ret D)) :
    (∀ x D, mand.result = Result.ret x → opt D = Outcome.ret x)
    ∧ (mand.faults = true → ∀ D, P D → opt D = Outcome.ret D) := by
  rcases h with ⟨y, hy, ho⟩ | ⟨m, hm, ho⟩
  · subst hy
    constructor
    · intro x D hx
      simp only [Outcome.result_ret, Result.ret.injEq] at hx
      subst hx
      exact ho D
    · intro hf
      simp at hf
  · subst hm
    constructor
    · intro x D hx
      simp [Outcome.panic] at hx
    · intro _ D hD
      exact ho D hD

/-- C20: Mandatory and Optional accessors agree. Whenever `MandatoryVar`,
`MandatoryVarAsBool`, `MandatoryVarAsInt`, `MandatoryVarAsInt64` or
`MandatoryVarAsStringSlice` returns a value `x`, the Optional accessor of the
same type (with the same delimiter) returns `x` for every default; whenever
the Mandatory accessor panics, the Optional accessor returns its default. -/
theorem env.mandatory_optional_agree (w : Nat) (hw : w = 32 ∨ w = 64) (e : Env)
    (N : GoString) (c : Int) :
    ((∀ x D, (env.MandatoryVar e N).result = Result.ret x → env.Var e N D = Outcome.ret x)
      ∧ ((env.MandatoryVar e N).faults = true → ∀ D, env.Var e N D = Outcome.ret D))
    ∧ ((∀ x D, (env.MandatoryVarAsBool e N).result = Result.ret x →
          env.VarAsBool e N D = Outcome.ret x)
      ∧ ((env.MandatoryVarAsBool e N).faults = true →
          ∀ D, env.VarAsBool e N D = Outcome.ret D))
    ∧ ((∀ x D, (env.MandatoryVarAsInt w e N).result = Result.ret x →
          env.VarAsInt w e N D = Outcome.ret x)
      ∧ ((env.MandatoryVarAsInt w e N).faults = true →
          ∀ D, isInt w D → env.VarAsInt w e N D = Outcome.ret D))
    ∧ ((∀ x D, (env.MandatoryVarAsInt64 e N).result = Result.ret x →
          env.VarAsInt64 e N D = Outcome.ret x)
      ∧ ((env.MandatoryVarAsInt64 e N).faults = true →
          ∀ D, env.VarAsInt64 e N D = Outcome.ret D))
    ∧ ((∀ x D, (env.MandatoryVarAsStringSlice e N c).result = Result.ret x →
          env.VarAsStringSlice e N D c = Outcome.ret x)
      ∧ ((env.MandatoryVarAsStringSlice e N c).faults = true →
          ∀ D, env.VarAsStringSlice e N D c = Outcome.ret D)) := by
  have lift : ∀ {α : Type} (mand : Outcome α) (opt : α → Outcome α),
      ((∃ x, mand = Outcome.ret x ∧ ∀ D, opt D = Outcome.ret x)
        ∨ (∃ m, mand = Outcome.panic m ∧ ∀ D, opt D = Outcome.ret D)) →
      (∀ x D, mand.result = Result.ret x → opt D = Outcome.ret x)
      ∧ (mand.faults = true → ∀ D, opt D = Outcome.ret D) := by
    intro α mand opt h
    have h2 := Outcome.agree_of_cases mand opt (fun _ => True)
      (h.imp id (fun ⟨m, hm, ho⟩ => ⟨m, hm, fun D _ => ho D⟩))
    exact ⟨h2.1, fun hf D => h2.2 hf D trivial⟩
  exact ⟨lift _ _ (env.agree_MandatoryVar e N),
    lift _ _ (env.agree_MandatoryVarAsBool e N),
    Outcome.agree_of_cases _ _ _ (env.agree_MandatoryVarAsInt w hw e N),
    lift _ _ (env.agree_MandatoryVarAsInt64 e N),
    lift _ (fun D => env.VarAsStringSlice e N D c) (env.agree_MandatoryVarAsStringSlice e N c)⟩

/-- Witness of C20 on a 64-bit platform: with `N` set to "12" the integer
accessors agree on 12; with `N` set to "x" `MandatoryVarAsBool` panics and
`VarAsBool` returns its default. -/
theorem env.mandatory_optional_agree_witness :
    env.VarAsInt 64 (os.Setenv os.emptyEnv (str "N") (str "12")) (str "N") 5 = Outcome.ret 12
    ∧ env.VarAsInt64 (os.Setenv os.emptyEnv (str "N") (str "12")) (str "N") 5 = Outcome.ret 12
    ∧ env.VarAsBool (os.Setenv os.emptyEnv (str "N") (str "x")) (str "N") true
        = Outcome.ret true
    ∧ env.VarAsInt 64 (os.Setenv os.emptyEnv (str "N") (str "x")) (str "N") 5
        = Outcome.ret 5 :=
  ⟨(env.mandatory_optional_agree 64 (Or.inr rfl)
      (os.Setenv os.emptyEnv (str "N") (str "12")) (str "N") 44).2.2.1.1 12 5 (by decide),
    (env.mandatory_optional_agree 64 (Or.inr rfl)
      (os.Setenv os.emptyEnv (str "N") (str "12")) (str "N") 44).2.2.2.1.1 12 5 (by decide),
    (env.mandatory_optional_agree 64 (Or.inr rfl)
      (os.Setenv os.emptyEnv (str "N") (str "x")) (str "N") 44).2.1.2 (by decide) true,
    (env.mandatory_optional_agree 64 (Or.inr rfl)
      (os.Setenv os.emptyEnv (str "N") (str "x")) (str "N") 44).2.2.1.2 (by decide) 5
      (by decide)⟩

/-! ## Totality of the Optional accessors, messages of the Mandatory ones -/

namespace env

theorem VarAsBool_returns (e : Env) (N : GoString) (D : Bool) :
    ∃ x, VarAsBool e N D = Outcome.ret x := by
  rcases agree_MandatoryVarAsBool e N with ⟨x, _, ho⟩ | ⟨_, _, ho⟩
  · exact ⟨x, ho D⟩
  · exact ⟨D, ho D⟩

theorem VarAsInt_returns (w : Nat) (e : Env) (N : GoString) (D : Int) :
    ∃ x, VarAsInt w e N D = Outcome.ret x := by
  obtain ⟨x, hx⟩ := VarAsInt64_returns e N (toInt64 D)
  refine ⟨toInt w x, ?_⟩
  unfold VarAsInt
  rw [hx]
  simp

theorem VarAsStringSlice_returns (e : Env) (N : GoString) (D : List GoString) (c : Int) :
    ∃ x, VarAsStringSlice e N D c = Outcome.ret x := by
  rcases agree_MandatoryVarAsStringSlice e N c with ⟨x, _, ho⟩ | ⟨_, _, ho⟩
  · exact ⟨x, ho D⟩
  · exact ⟨D, ho D⟩

theorem getVar_returns (e : Env) (N D : GoString) (warn : Bool) :
    ∃ x, (getVar e N D warn).result = Result.ret x := by
  by_cases h : os.Getenv e N = []
  · rw [getVar_of_nil e N D warn h]
    cases warn <;> exact ⟨D, rfl⟩
  · rw [getVar_of_ne_nil e N D warn h]
    exact ⟨_, rfl⟩

end env

/-- C14: soft fallback is total. For every environment and every argument
list, `Var`, `ImportantVar`, `VarAsBool`, `VarAsInt`, `VarAsInt64` and
`VarAsStringSlice` return a value and do not panic, and `VarAsBool`,
`VarAsInt` and `VarAsInt64` log nothing, whatever the value of the variable. -/
theorem env.optional_never_faults (w : Nat) (e : Env) (N D : GoString) (Db : Bool)
    (Di D64 : Int) (Dl : List GoString) (c : Int) :
    ((∃ x, (env.Var e N D).result = Result.ret x) ∧ (env.Var e N D).faults = false)
    ∧ ((∃ x, (env.ImportantVar e N D).result = Result.ret x)
      ∧ (env.ImportantVar e N D).faults = false)
    ∧ ((∃ x, (env.VarAsBool e N Db).result = Result.ret x)
      ∧ (env.VarAsBool e N Db).faults = false ∧ (env.VarAsBool e N Db).log = [])
    ∧ ((∃ x, (env.VarAsInt w e N Di).result = Result.ret x)
      ∧ (env.VarAsInt w e N Di).faults = false ∧ (env.VarAsInt w e N Di).log = [])
    ∧ ((∃ x, (env.VarAsInt64 e N D64).result = Result.ret x)
      ∧ (env.VarAsInt64 e N D64).faults = false ∧ (env.VarAsInt64 e N D64).log = [])
    ∧ ((∃ x, (env.VarAsStringSlice e N Dl c).result = Result.ret x)
      ∧ (env.VarAsStringSlice e N Dl c).faults = false) := by
  obtain ⟨x1, h1⟩ := env.getVar_returns e N D false
  obtain ⟨x2, h2⟩ := env.getVar_returns e N D true
  obtain ⟨x3, h3⟩ := env.VarAsBool_returns e N Db
  obtain ⟨x4, h4⟩ := env.VarAsInt_returns w e N Di
  obtain ⟨x5, h5⟩ := env.VarAsInt64_returns e N D64
  obtain ⟨x6, h6⟩ := env.VarAsStringSlice_returns e N Dl c
  refine ⟨⟨⟨x1, h1⟩, ?_⟩, ⟨⟨x2, h2⟩, ?_⟩, ?_, ?_, ?_, ?_⟩
  · simp [Outcome.faults, env.Var, h1]
  · simp [Outcome.faults, env.ImportantVar, h2]
  · rw [h3]; exact ⟨⟨x3, rfl⟩, rfl, rfl⟩
  · rw [h4]; exact ⟨⟨x4, rfl⟩, rfl, rfl⟩
  · rw [h5]; exact ⟨⟨x5, rfl⟩, rfl, rfl⟩
  · rw [h6]; exact ⟨⟨x6, rfl⟩, rfl⟩

theorem os.Getenv_Setenv_self (e : Env) (N v : GoString) : os.Getenv (os.Setenv e N v) N = v := by
  simp [os.Getenv, os.Setenv]

theorem os.Getenv_Unsetenv_self (e : Env) (N : GoString) : os.Getenv (os.Unsetenv e N) N = [] := by
  simp [os.Getenv, os.Unsetenv]

/-- C15: absence and malformedness cannot be told apart through the Optional
typed accessors. Take two environments that differ only in `N`, unset in one
and set to a string `v` in the other. When `v` is no accepted boolean
spelling, `VarAsBool(N, D)` has the same outcome in both; when `v` is no
integer literal of the `int64` range, `VarAsInt(N, D)` and `VarAsInt64(N, D)`
have the same outcome in both; and nothing is logged in either. -/
theorem env.absent_malformed_indistinguishable (w : Nat) (e : Env) (N v : GoString)
    (Db : Bool) (D D64 : Int) :
    (v ∉ spec.trueLiterals → v ∉ spec.falseLiterals →
      env.VarAsBool (os.Setenv e N v) N Db = env.VarAsBool (os.Unsetenv e N) N Db
      ∧ (env.VarAsBool (os.Setenv e N v) N Db).log = []
      ∧ (env.VarAsBool (os.Unsetenv e N) N Db).log = [])
    ∧ (¬ spec.isInt64Literal v →
      (env.VarAsInt w (os.Setenv e N v) N D = env.VarAsInt w (os.Unsetenv e N) N D
        ∧ (env.VarAsInt w (os.Setenv e N v) N D).log = []
        ∧ (env.VarAsInt w (os.Unsetenv e N) N D).log = [])
      ∧ (env.VarAsInt64 (os.Setenv e N v) N D64 = env.VarAsInt64 (os.Unsetenv e N) N D64
        ∧ (env.VarAsInt64 (os.Setenv e N v) N D64).log = []
        ∧ (env.VarAsInt64 (os.Unsetenv e N) N D64).log = [])) := by
  have hs : os.Getenv (os.Setenv e N v) N = v := os.Getenv_Setenv_self e N v
  have hu : os.Getenv (os.Unsetenv e N) N = [] := os.Getenv_Unsetenv_self e N
  constructor
  · intro ht hf
    have hp := strconv.ParseBool_of_not_mem v ht hf
    rw [← hs] at hp
    rw [env.VarAsBool_of_unparsed _ N Db false _ hp, env.VarAsBool_of_nil _ N Db hu]
    exact ⟨rfl, rfl, rfl⟩
  · intro hnl
    rcases hp : strconv.ParseInt v 10 64 with ⟨n, err⟩
    cases err with
    | none => exact absurd (strconv.ParseInt_ok_int64Literal v n hp) hnl
    | some er =>
      rw [← hs] at hp
      have h64 : ∀ d, env.VarAsInt64 (os.Setenv e N v) N d = Outcome.ret d :=
        fun d => env.VarAsInt64_of_unparsed _ N d n er hp
      have h64u : ∀ d, env.VarAsInt64 (os.Unsetenv e N) N d = Outcome.ret d :=
        fun d => env.VarAsInt64_of_nil _ N d hu
      constructor
      · unfold env.VarAsInt
        rw [h64, h64u]
        exact ⟨rfl, by simp, by simp⟩
      · rw [h64, h64u]
        exact ⟨rfl, rfl, rfl⟩

/-- Witness of C15: `N` unset against `N` set to "maybe" for the boolean, and
against "12a" for the integers, on a 64-bit platform. -/
theorem env.absent_malformed_indistinguishable_witness :
    (env.VarAsBool (os.Setenv os.emptyEnv (str "N") (str "maybe")) (str "N") true
        = env.VarAsBool (os.Unsetenv os.emptyEnv (str "N")) (str "N") true
      ∧ (env.VarAsBool (os.Setenv os.emptyEnv (str "N") (str "maybe")) (str "N") true).log = []
      ∧ (env.VarAsBool (os.Unsetenv os.emptyEnv (str "N")) (str "N") true).log = [])
    ∧ (env.VarAsInt64 (os.Setenv os.emptyEnv (str "N") (str "12a")) (str "N") 4
        = env.VarAsInt64 (os.Unsetenv os.emptyEnv (str "N")) (str "N") 4
      ∧ (env.VarAsInt64 (os.Setenv os.emptyEnv (str "N") (str "12a")) (str "N") 4).log = []
      ∧ (env.VarAsInt64 (os.Unsetenv os.emptyEnv (str "N")) (str "N") 4).log = []) :=
  ⟨(env.absent_malformed_indistinguishable 64 os.emptyEnv (str "N") (str "maybe")
      true 3 4).1 (by decide) (by decide),
    ((env.absent_malformed_indistinguishable 64 os.emptyEnv (str "N") (str "12a")
      true 3 4).2 (by decide)).2⟩

theorem fmt.infix_Sprintf1 (before : String) (a : GoString) : a <:+: fmt.Sprintf1 before a :=
  ⟨str before, [], by simp [fmt.Sprintf1]⟩

theorem fmt.infix_Sprintf2 (before : String) (a : GoString) (between : String) (b : GoString) :
    a <:+: fmt.Sprintf2 before a between b ∧ b <:+: fmt.Sprintf2 before a between b :=
  ⟨⟨str before, str between ++ b, by simp [fmt.Sprintf2]⟩,
    ⟨str before ++ a ++ str between, [], by simp [fmt.Sprintf2]⟩⟩

/-- The missing-variable message starts with `M`, the invalid-value messages
start with `I`. -/
theorem fmt.missing_ne_invalid (N a b : GoString) :
    fmt.Sprintf1 "Missing mandatory env var name " N
        ≠ fmt.Sprintf2 "Invalid bool value for env var name " a " value " b
    ∧ fmt.Sprintf1 "Missing mandatory env var name " N
        ≠ fmt.Sprintf2 "Invalid int value for env var name " a " value " b
    ∧ fmt.Sprintf1 "Missing mandatory env var name " N
        ≠ fmt.Sprintf2 "Invalid []string value for env var name " a " value " b := by
  have hM : str "Missing mandatory env var name " = 77 :: str "issing mandatory env var name " := by
    decide
  have hB : str "Invalid bool value for env var name "
      = 73 :: str "nvalid bool value for env var name " := by decide
  have hI : str "Invalid int value for env var name "
      = 73 :: str "nvalid int value for env var name " := by decide
  have hS : str "Invalid []string value for env var name "
      = 73 :: str "nvalid []string value for env var name " := by decide
  unfold fmt.Sprintf1 fmt.Sprintf2
  rw [hM, hB, hI, hS]
  simp

namespace env

/-- The message `MandatoryVarAsBool` panics with when the variable is set to
a non-empty value. -/
theorem MandatoryVarAsBool_fault_message (e : Env) (N v m : GoString) (hv : e N = some v)
    (hne : v ≠ []) (hm : (MandatoryVarAsBool e N).result = Result.fault m) :
    m = fmt.Sprintf2 "Invalid bool value for env var name " N " value " v := by
  have h : os.Getenv e N = v := os.Getenv_of_set e N v hv
  have hne2 : os.Getenv e N ≠ [] := by rw [h]; exact hne
  rcases hp : strconv.ParseBool (os.Getenv e N) with ⟨b, err⟩
  cases err with
  | none =>
    rw [MandatoryVarAsBool_of_parsed e N b hne2 hp] at hm
    cases hm
  | some er =>
    rw [MandatoryVarAsBool_of_unparsed e N b er hne2 hp, h] at hm
    simp only [Outcome.panic, Result.fault.injEq] at hm
    exact hm.symm

/-- The message `MandatoryVarAsInt64` panics with when the variable is set to
a non-empty value. -/
theorem MandatoryVarAsInt64_fault_message (e : Env) (N v m : GoString) (hv : e N = some v)
    (hne : v ≠ []) (hm : (MandatoryVarAsInt64 e N).result = Result.fault m) :
    m = fmt.Sprintf2 "Invalid int value for env var name " N " value " v := by
  have h : os.Getenv e N = v := os.Getenv_of_set e N v hv
  have hne2 : os.Getenv e N ≠ [] := by rw [h]; exact hne
  rcases hp : strconv.ParseInt (os.Getenv e N) 10 64 with ⟨n, err⟩
  cases err with
  | none =>
    rw [MandatoryVarAsInt64_of_parsed e N n hne2 hp] at hm
    cases hm
  | some er =>
    rw [MandatoryVarAsInt64_of_unparsed e N n er hne2 hp, h] at hm
    simp only [Outcome.panic, Result.fault.injEq] at hm
    exact hm.symm

/-- The message `MandatoryVarAsInt` panics with when the variable is set to a
non-empty value. -/
theorem MandatoryVarAsInt_fault_message (w : Nat) (e : Env) (N v m : GoString)
    (hv : e N = some v) (hne : v ≠ [])
    (hm : (MandatoryVarAsInt w e N).result = Result.fault m) :
    m = fmt.Sprintf2 "Invalid int value for env var name " N " value " v := by
  apply MandatoryVarAsInt64_fault_message e N v m hv hne
  rcases MandatoryVarAsInt64_cases e N with ⟨x, hx⟩ | ⟨m2, hm2⟩
  · rw [MandatoryVarAsInt_of_ret w e N x hx] at hm
    cases hm
  · rw [MandatoryVarAsInt_of_panic w e N m2 hm2] at hm
    rw [hm2]
    exact hm

end env

/-- C13: messages of the Mandatory accessors. When `N` is unset or empty,
every Mandatory accessor panics with the missing-variable message, which
contains `N`. When `N` is set to a non-empty `v` and `MandatoryVarAsBool`,
`MandatoryVarAsInt` or `MandatoryVarAsInt64` panics, its message is the
invalid-value message of its type, which contains both `N` and `v`. For the
same `N`, the message that any Mandatory accessor panics with when `N` is
unset or empty is never equal to a message that `MandatoryVarAsBool`,
`MandatoryVarAsInt` or `MandatoryVarAsInt64` panics with when `N` is set to a
non-empty value, whatever that value. -/
theorem env.mandatory_messages (w : Nat) (e : Env) (N : GoString) (c : Int) :
    ((e N = none ∨ e N = some []) →
      env.MandatoryVar e N
          = Outcome.panic (fmt.Sprintf1 "Missing mandatory env var name " N)
      ∧ env.MandatoryVarAsBool e N
          = Outcome.panic (fmt.Sprintf1 "Missing mandatory env var name " N)
      ∧ env.MandatoryVarAsInt w e N
          = Outcome.panic (fmt.Sprintf1 "Missing mandatory env var name " N)
      ∧ env.MandatoryVarAsInt64 e N
          = Outcome.panic (fmt.Sprintf1 "Missing mandatory env var name " N)
      ∧ env.MandatoryVarAsStringSlice e N c
          = Outcome.panic (fmt.Sprintf1 "Missing mandatory env var name " N))
    ∧ N <:+: fmt.Sprintf1 "Missing mandatory env var name " N
    ∧ (∀ v m : GoString, e N = some v → v ≠ [] →
        ((env.MandatoryVarAsBool e N).result = Result.fault m →
          m = fmt.Sprintf2 "Invalid bool value for env var name " N " value " v
          ∧ N <:+: m ∧ v <:+: m)
        ∧ ((env.MandatoryVarAsInt w e N).result = Result.fault m →
          m = fmt.Sprintf2 "Invalid int value for env var name " N " value " v
          ∧ N <:+: m ∧ v <:+: m)
        ∧ ((env.MandatoryVarAsInt64 e N).result = Result.fault m →
          m = fmt.Sprintf2 "Invalid int value for env var name " N " value " v
          ∧ N <:+: m ∧ v <:+: m))
    ∧ (∀ v : GoString,
        fmt.Sprintf1 "Missing mandatory env var name " N
            ≠ fmt.Sprintf2 "Invalid bool value for env var name " N " value " v
        ∧ fmt.Sprintf1 "Missing mandatory env var name " N
            ≠ fmt.Sprintf2 "Invalid int value for env var name " N " value " v
        ∧ fmt.Sprintf1 "Missing mandatory env var name " N
            ≠ fmt.Sprintf2 "Invalid []string value for env var name " N " value " v)
    ∧ (∀ (e2 : Env) (v m1 m2 : GoString), (e N = none ∨ e N = some []) →
        e2 N = some v → v ≠ [] →
        ((env.MandatoryVar e N).result = Result.fault m1
          ∨ (env.MandatoryVarAsBool e N).result = Result.fault m1
          ∨ (env.MandatoryVarAsInt w e N).result = Result.fault m1
          ∨ (env.MandatoryVarAsInt64 e N).result = Result.fault m1
          ∨ (env.MandatoryVarAsStringSlice e N c).result = Result.fault m1) →
        ((env.MandatoryVarAsBool e2 N).result = Result.fault m2
          ∨ (env.MandatoryVarAsInt w e2 N).result = Result.fault m2
          ∨ (env.MandatoryVarAsInt64 e2 N).result = Result.fault m2) →
        m1 ≠ m2) := by
  have hmissing : (e N = none ∨ e N = some []) →
      env.MandatoryVar e N
          = Outcome.panic (fmt.Sprintf1 "Missing mandatory env var name " N)
      ∧ env.MandatoryVarAsBool e N
          = Outcome.panic (fmt.Sprintf1 "Missing mandatory env var name " N)
      ∧ env.MandatoryVarAsInt w e N
          = Outcome.panic (fmt.Sprintf1 "Missing mandatory env var name " N)
      ∧ env.MandatoryVarAsInt64 e N
          = Outcome.panic (fmt.Sprintf1 "Missing mandatory env var name " N)
      ∧ env.MandatoryVarAsStringSlice e N c
          = Outcome.panic (fmt.Sprintf1 "Missing mandatory env var name " N) := by
    intro habs
    have h := (os.Getenv_eq_nil_iff e N).mpr habs
    exact ⟨env.MandatoryVar_of_nil e N h, env.MandatoryVarAsBool_of_nil e N h,
      env.MandatoryVarAsInt_of_panic w e N _ (env.MandatoryVarAsInt64_of_nil e N h),
      env.MandatoryVarAsInt64_of_nil e N h, env.MandatoryVarAsStringSlice_of_nil e N c h⟩
  refine ⟨hmissing, fmt.infix_Sprintf1 _ N, ?_, fun v => fmt.missing_ne_invalid N N v, ?_⟩
  · intro v m hv hne
    refine ⟨?_, ?_, ?_⟩
    · intro hm
      have := env.MandatoryVarAsBool_fault_message e N v m hv hne hm
      subst this
      exact ⟨rfl, fmt.infix_Sprintf2 _ N _ v⟩
    · intro hm
      have := env.MandatoryVarAsInt_fault_message w e N v m hv hne hm
      subst this
      exact ⟨rfl, fmt.infix_Sprintf2 _ N _ v⟩
    · intro hm
      have := env.MandatoryVarAsInt64_fault_message e N v m hv hne hm
      subst this
      exact ⟨rfl, fmt.infix_Sprintf2 _ N _ v⟩
  · intro e2 v m1 m2 habs hv hne h1 h2
    obtain ⟨a1, a2, a3, a4, a5⟩ := hmissing habs
    have hm1 : m1 = fmt.Sprintf1 "Missing mandatory env var name " N := by
      rw [a1, a2, a3, a4, a5] at h1
      simp only [Outcome.panic, Result.fault.injEq, or_self] at h1
      exact h1.symm
    have hdiff := fmt.missing_ne_invalid N N v
    rcases h2 with h2 | h2 | h2
    · rw [hm1, env.MandatoryVarAsBool_fault_message e2 N v m2 hv hne h2]
      exact hdiff.1
    · rw [hm1, env.MandatoryVarAsInt_fault_message w e2 N v m2 hv hne h2]
      exact hdiff.2.1
    · rw [hm1, env.MandatoryVarAsInt64_fault_message e2 N v m2 hv hne h2]
      exact hdiff.2.1

/-- Witness of C13: `PORT` unset, and `PORT` set to "http", on a 64-bit
platform. -/
theorem env.mandatory_messages_witness :
    (env.MandatoryVar os.emptyEnv (str "PORT")
        = Outcome.panic (str "Missing mandatory env var name PORT")
      ∧ env.MandatoryVarAsInt 64 os.emptyEnv (str "PORT")
        = Outcome.panic (str "Missing mandatory env var name PORT"))
    ∧ (str "Invalid int value for env var name PORT value http"
        = fmt.Sprintf2 "Invalid int value for env var name " (str "PORT") " value " (str "http")
      ∧ str "PORT" <:+: str "Invalid int value for env var name PORT value http"
      ∧ str "http" <:+: str "Invalid int value for env var name PORT value http")
    ∧ str "Missing mandatory env var name PORT"
        ≠ str "Invalid int value for env var name PORT value http" :=
  ⟨⟨((env.mandatory_messages 64 os.emptyEnv (str "PORT") 44).1 (Or.inl rfl)).1,
      ((env.mandatory_messages 64 os.emptyEnv (str "PORT") 44).1 (Or.inl rfl)).2.2.1⟩,
    ((env.mandatory_messages 64 (os.Setenv os.emptyEnv (str "PORT") (str "http")) (str "PORT")
      44).2.2.1 (str "http") (str "Invalid int value for env var name PORT value http")
      (by decide) (by decide)).2.1 (by decide),
    (env.mandatory_messages 64 os.emptyEnv (str "PORT") 44).2.2.2.2
      (os.Setenv os.emptyEnv (str "PORT") (str "http")) (str "http")
      (str "Missing mandatory env var name PORT")
      (str "Invalid int value for env var name PORT value http")
      (Or.inl rfl) (by decide) (by decide) (Or.inl (by decide)) (Or.inr (Or.inl (by decide)))⟩
